import Mathlib

/-!
Verification of the Stock-Price-Modeling-Analytics pipeline.

This file shallow-embeds the data model and the algorithms of the C++
sources (impact walk, weighted correlation, series trimming, bar
aggregation, consolidated-snapshot construction, and the k-way
timestamp merger with its libstdc++ binary-heap priority queue) and
proves or refutes the specified properties about them.

Conventions used throughout:
* machine integers are modelled as Nat or Int; where wraparound can
  matter (int32 volume accumulation, uint32 header counts) the
  reduction modulo 2^32 is written out explicitly;
* IEEE doubles that the code only copies, compares, adds and divides
  are modelled as exact rationals (the fixed-point nanos prices divide
  exactly by 10^9 in ℚ; every concrete test value below is exactly
  representable as a double, so the modelled arithmetic coincides with
  the double arithmetic on those inputs);
* a C++ double NaN result is modelled as an Option ℚ that is none;
* files and streams are lists of decoded records.
-/

namespace SPM

/-! ## C struct layout (System V AMD64 ABI)

The impact programs (impact_base.cpp, merged_impact_base.cpp) declare
struct ExecutionResult WITHOUT a pack pragma and write whole structs to
disk with ofstream::write(&r, sizeof r).  To reason about the bytes
actually written we model the C layout algorithm: each field is placed
at the next offset aligned to the field's alignment, and the struct
size is the end offset rounded up to the largest field alignment. -/

/-- A scalar C struct field, given by its size and alignment in bytes
(on x86-64: uint32_t is 4/4, uint64_t 8/8, double 8/8). -/
structure CField where
  size : Nat
  align : Nat
deriving DecidableEq, Repr

/-- Rounds an offset up to the next multiple of the alignment. -/
def alignUp (off a : Nat) : Nat := ((off + a - 1) / a) * a

/-- Natural (unpacked) field offsets of a C struct, in declaration order. -/
def fieldOffsets (fs : List CField) : List Nat :=
  (fs.foldl (fun (acc : List Nat × Nat) f =>
    let off := alignUp acc.2 f.align
    (acc.1 ++ [off], off + f.size)) ([], 0)).1

/-- End of the last field of a C struct under the natural layout. -/
def fieldsEnd (fs : List CField) : Nat :=
  fs.foldl (fun off f => alignUp off f.align + f.size) 0

/-- Size of an unpacked C struct: the end of the last field rounded up
to the struct alignment (the maximum field alignment). -/
def structSize (fs : List CField) : Nat :=
  alignUp (fieldsEnd fs) (fs.foldl (fun m f => max m f.align) 1)

/-- Size of the same field list under pragma pack(1): the plain sum of
the field sizes, no padding anywhere. -/
def packedSize (fs : List CField) : Nat := (fs.map CField.size).sum

/-- Packed field offsets: each field immediately follows its predecessor. -/
def packedOffsets (fs : List CField) : List Nat :=
  (fs.foldl (fun (acc : List Nat × Nat) f => (acc.1 ++ [acc.2], acc.2 + f.size)) ([], 0)).1

/-- Field list of struct ExecutionResult exactly as declared in
impact_base.cpp and merged_impact_base.cpp (identical in both):
uint64_t timestamp; uint64_t seqno; double bid_exec_price;
uint32_t bid_levels_consumed; double ask_exec_price;
uint32_t ask_levels_consumed — declared with NO pack pragma. -/
def ExecutionResultFields : List CField :=
  [⟨8, 8⟩, ⟨8, 8⟩, ⟨8, 8⟩, ⟨4, 4⟩, ⟨8, 8⟩, ⟨4, 4⟩]

/-! ## Impact walk (calculate_side_execution)

Faithful embedding of calculate_side_execution from impact_base.cpp
lines 47–86 (merged_impact_base.cpp lines 54–93 is textually the same
function).  Prices are int64 nanos, quantities uint32; the level
arrays have length 3 and are passed here as a zipped list of
(price, qty) pairs.  The double accumulator total_value_for_qty and
the returned execution price are modelled in ℚ; the NaN results are
modelled as none. -/

/-- Code after the loop of calculate_side_execution: if the filled
quantity is short of the target the side is unfillable (NaN result),
otherwise the accumulated value is divided by the target. -/
def csFinish (target : Nat) (total : ℚ) (filled touched : Nat) : Option ℚ × Nat :=
  if filled < target then (none, touched)
  else (some (total / (target : ℚ)), touched)

/-- The for-loop of calculate_side_execution with its accumulators.
Each iteration breaks when the target is already filled or the level is
absent (price == 0 or qty == 0), otherwise consumes
min(target − filled, level_qty) shares at price/10⁹. -/
def csLoop (target : Nat) (total : ℚ) (filled touched : Nat) :
    List (Int × Nat) → Option ℚ × Nat
  | [] => csFinish target total filled touched
  | (p, q) :: rest =>
    if filled = target then csFinish target total filled touched
    else if p = 0 ∨ q = 0 then csFinish target total filled touched
    else
      let exec := min (target - filled) q
      csLoop target (total + (exec : ℚ) * ((p : ℚ) / 1000000000))
        (filled + exec) (touched + 1) rest

/-- calculate_side_execution: early return (NaN, 0) for a zero target,
otherwise run the three-level walk. -/
def calculate_side_execution (target : Nat) (prices : List Int) (qtys : List Nat) :
    Option ℚ × Nat :=
  if target = 0 then (none, 0)
  else csLoop target 0 0 0 (prices.zip qtys)

/-- Modelled from the spec text of the impact walk (section 4.5): walk
the levels in order keeping the remaining quantity; at each present
level consume min(remaining, level_qty) shares at level_price/10⁹ and
count the level; stop when the remaining quantity reaches zero (fully
filled: return accumulated value / Q) or a level is absent or the
levels run out (unfillable: NaN). -/
def impactWalkSpec (Q : Nat) (levels : List (Int × Nat)) : Option ℚ × Nat :=
  go levels Q 0 0
where
  /-- Recursive walk used by impactWalkSpec, carrying the remaining
  quantity, the accumulated value and the count of consumed levels. -/
  go : List (Int × Nat) → Nat → ℚ → Nat → Option ℚ × Nat
  | levels, rem, value, count =>
    if rem = 0 then (some (value / (Q : ℚ)), count)
    else
      match levels with
      | [] => (none, count)
      | (p, q) :: rest =>
        if p = 0 ∨ q = 0 then (none, count)
        else go rest (rem - min rem q)
          (value + ((min rem q : Nat) : ℚ) * ((p : ℚ) / 1000000000)) (count + 1)

lemma csLoop_eq_go (Q : Nat) (hQ : Q ≠ 0) :
    ∀ (levels : List (Int × Nat)) (total : ℚ) (filled touched : Nat), filled ≤ Q →
      csLoop Q total filled touched levels
        = impactWalkSpec.go Q levels (Q - filled) total touched := by
  intro levels
  induction levels with
  | nil =>
    intro total filled touched hle
    rw [csLoop, impactWalkSpec.go]
    by_cases hf : filled = Q
    · subst hf
      simp [csFinish]
    · have hlt : filled < Q := lt_of_le_of_ne hle hf
      have hrem : Q - filled ≠ 0 := Nat.sub_ne_zero_of_lt hlt
      simp [csFinish, hlt, hrem]
  | cons hd rest ih =>
    intro total filled touched hle
    obtain ⟨p, q⟩ := hd
    rw [csLoop, impactWalkSpec.go]
    by_cases hf : filled = Q
    · have h0 : Q - filled = 0 := by omega
      rw [h0]
      simp [csFinish, hf]
    · have hlt : filled < Q := lt_of_le_of_ne hle hf
      have hrem : Q - filled ≠ 0 := Nat.sub_ne_zero_of_lt hlt
      rw [if_neg hrem, if_neg hf]
      by_cases habs : p = 0 ∨ q = 0
      · simp only [if_pos habs]
        simp [csFinish, hlt]
      · simp only [if_neg habs]
        have hexec : min (Q - filled) q ≤ Q - filled := Nat.min_le_left _ _
        rw [ih _ _ _ (by omega)]
        congr 1
        omega

/-- C5: for every book side and every positive target quantity, the
three-level impact walk of both impact programs computes exactly the
walk described by the spec (consume min(remaining, level_qty) shares at
level_price/10⁹ per present level, stopping on fill or absence, vwap =
accumulated value / Q when filled, NaN when not, with the count of
levels touched); in particular bids priced 100, 99, 98 currency units
(in nanos) with quantities 5, 5, 5 and Q = 8 give
vwap = (5·100 + 3·99)/8 = 797/8 = 99.625 and levels_consumed = 2. -/
theorem impact_walk_matches_spec :
    (∀ (Q : Nat) (prices : List Int) (qtys : List Nat), Q ≠ 0 →
        calculate_side_execution Q prices qtys = impactWalkSpec Q (prices.zip qtys))
    ∧ calculate_side_execution 8 [100000000000, 99000000000, 98000000000] [5, 5, 5]
        = (some (797 / 8), 2) := by
  constructor
  · intro Q ps qs hQ
    rw [calculate_side_execution, if_neg hQ, impactWalkSpec]
    have h := csLoop_eq_go Q hQ (ps.zip qs) 0 0 0 (Nat.zero_le Q)
    rwa [Nat.sub_zero] at h
  · norm_num [calculate_side_execution, csLoop, csFinish]

/-- Witness for C5 at target 3 against bid levels (5 nanos, qty 1),
(7 nanos, qty 9): the code walk and the spec walk agree. -/
theorem impact_walk_matches_spec_witness :
    (3 : Nat) ≠ 0
    ∧ calculate_side_execution 3 [5, 7] [1, 9]
        = impactWalkSpec 3 ([5, 7].zip [1, 9]) :=
  ⟨by decide, impact_walk_matches_spec.1 3 [5, 7] [1, 9] (by decide)⟩

/-- C9: a target quantity of exactly 0 takes the early return (NaN, 0)
without touching any level, and an actual execution price (the branch
that divides by the target quantity) is only produced when the target
quantity is non-zero. -/
theorem impact_walk_zero_target_safe :
    (∀ (prices : List Int) (qtys : List Nat),
        calculate_side_execution 0 prices qtys = (none, 0))
    ∧ ∀ (Q : Nat) (prices : List Int) (qtys : List Nat),
        (calculate_side_execution Q prices qtys).1.isSome → 0 < Q := by
  constructor
  · intro ps qs
    rw [calculate_side_execution, if_pos rfl]
  · intro Q ps qs h
    rcases Nat.eq_zero_or_pos Q with h0 | h0
    · subst h0
      rw [calculate_side_execution, if_pos rfl] at h
      simp at h
    · exact h0

/-- Witness for C9: the walk at target 8 on a fully fillable book
produces a price, and the target is indeed positive. -/
theorem impact_walk_zero_target_safe_witness :
    (calculate_side_execution 8 [100000000000] [20]).1.isSome ∧ 0 < 8 :=
  ⟨by decide, impact_walk_zero_target_safe.2 8 [100000000000] [20] (by decide)⟩

/-- C3 counterexample: struct ExecutionResult as declared (no pack
pragma, x86-64 natural alignment) occupies 48 bytes, not 36, and its
field offsets are not the packed offsets — there are padding bytes. -/
theorem execution_result_not_packed_36 :
    structSize ExecutionResultFields = 48
    ∧ ¬ structSize ExecutionResultFields = 36
    ∧ fieldOffsets ExecutionResultFields ≠ packedOffsets ExecutionResultFields
    ∧ ¬ packedSize ExecutionResultFields = 36 := by
  decide

/-- C3 amended: each ExecutionResult record written to disk is 48
bytes: fields at offsets 0, 8, 16, 24, 32, 40, with 4 padding bytes
after bid_levels_consumed (offset 24+4=28 up to 32) and 4 tail padding
bytes (fields end at 44, size 48).  Even a packed layout of these
fields would be 40 bytes (offsets 0, 8, 16, 24, 28, 36), not the 36
the spec states. -/
theorem execution_result_layout :
    fieldOffsets ExecutionResultFields = [0, 8, 16, 24, 32, 40]
    ∧ structSize ExecutionResultFields = 48
    ∧ fieldsEnd ExecutionResultFields = 44
    ∧ packedOffsets ExecutionResultFields = [0, 8, 16, 24, 28, 36]
    ∧ packedSize ExecutionResultFields = 40 := by
  decide

/-! ## Series length trimming for correlation

trim_to_same_length (price_correlation.cpp lines 93–126) shortens the
longer of two closing-price series by picking every step-th element
from index 0, step = max(1, longer/shorter), until shorter-many
elements are collected.  calculate_file_correlation of
correlation_generation.cpp lines 255–293 prepares its two series
differently: it uses the first n = min(len1, len2) elements of both
(its single-pass sums run over indices 0..n−1).  Closing prices are
modelled as ℚ. -/

/-- The strided collection loop of trim_to_same_length: starting at
index 0, append element i and advance by step while the source has
elements and the result is shorter than the cap. -/
def trimLoop (l1 : List ℚ) (step cap : Nat) (i : Nat) (acc : List ℚ) : List ℚ :=
  if _h : i < l1.length ∧ acc.length < cap then
    trimLoop l1 step cap (i + step) (acc ++ [l1.getD i 0])
  else acc
termination_by cap - acc.length
decreasing_by simp only [List.length_append, List.length_cons, List.length_nil]; omega

/-- trim_to_same_length: empty input gives two empty lists; otherwise
the longer list is decimated with stride max(1, longer/shorter) down to
the shorter length and the shorter list is kept whole. -/
def trim_to_same_length (list1 list2 : List ℚ) : List ℚ × List ℚ :=
  if list1.length = 0 ∨ list2.length = 0 then ([], [])
  else if list2.length < list1.length then
    (trimLoop list1 (max 1 (list1.length / list2.length)) list2.length 0 [], list2)
  else if list1.length < list2.length then
    (list1, trimLoop list2 (max 1 (list2.length / list1.length)) list1.length 0 [])
  else (list1, list2)

/-- Preparation step of calculate_file_correlation in
correlation_generation.cpp: the two closing-price vectors whose
elements actually enter the correlation sums — the first
n = min(len1, len2) elements of each series (none when either series
is empty or n < 10).  The sums, sqrt and final division are not
modelled; this captures which data the correlation is computed over. -/
def calculate_file_correlation_data (data1 data2 : List ℚ) :
    Option (List ℚ × List ℚ) :=
  if data1.isEmpty ∨ data2.isEmpty then none
  else if min data1.length data2.length < 10 then none
  else some (data1.take (min data1.length data2.length),
             data2.take (min data1.length data2.length))

/-- Preparation step of calculate_file_correlation in
price_correlation.cpp: trim both series with trim_to_same_length, skip
the pair when a trimmed vector has fewer than 10 elements. -/
def calculate_file_correlation_pc_data (prices1 prices2 : List ℚ) :
    Option (List ℚ × List ℚ) :=
  if prices1.isEmpty ∨ prices2.isEmpty then none
  else
    let t := trim_to_same_length prices1 prices2
    if t.1.length < 10 ∨ t.2.length < 10 then none
    else some t

/-- Modelled from the spec text of the correlation preparation: the
longer series is decimated by stride floor(longer/shorter) starting
from its first element, keeping shorter-many elements. -/
def decimateSpec (longer : List ℚ) (m : Nat) : List ℚ :=
  (List.range m).map (fun k => longer.getD (k * (longer.length / m)) 0)

lemma trimLoop_eq (l1 : List ℚ) (step cap : Nat) :
    ∀ (n i : Nat) (acc : List ℚ), n = cap - acc.length →
      (∀ k, k < n → i + k * step < l1.length) →
      trimLoop l1 step cap i acc
        = acc ++ (List.range n).map (fun k => l1.getD (i + k * step) 0) := by
  intro n
  induction n with
  | zero =>
    intro i acc hn _
    rw [trimLoop, dif_neg (by omega)]
    simp
  | succ m ih =>
    intro i acc hn hk
    have hi : i < l1.length := by
      have := hk 0 (Nat.succ_pos m)
      simpa using this
    rw [trimLoop, dif_pos ⟨hi, by omega⟩]
    rw [ih (i + step) (acc ++ [l1.getD i 0])
      (by simp only [List.length_append, List.length_cons, List.length_nil]; omega)
      (fun k hkm => by
        have := hk (k + 1) (by omega)
        have harith : i + (k + 1) * step = i + step + k * step := by ring
        omega)]
    rw [List.append_assoc]
    congr 1
    rw [List.range_succ_eq_map]
    simp only [List.map_cons, List.map_map, List.singleton_append]
    congr 1
    · simp
    · congr 1
      funext k
      simp only [Function.comp_apply]
      congr 1
      rw [Nat.succ_mul]
      omega

/-- C6 amended: trim_to_same_length (price_correlation.cpp) decimates
the longer series by stride floor(longer/shorter) from its first
element down to exactly the shorter length and keeps the shorter list
whole; for series of lengths 20 and 10 the decimated elements are
those at indices 0, 2, …, 18 and the prepared vectors both have
length 10.  calculate_file_correlation of correlation_generation.cpp,
however, does not decimate: it truncates both series to their first
min(len1, len2) elements (see the counterexample theorem). -/
theorem trim_to_same_length_decimates :
    (∀ l1 l2 : List ℚ, l2.length < l1.length → l2 ≠ [] →
        trim_to_same_length l1 l2 = (decimateSpec l1 l2.length, l2)
        ∧ (decimateSpec l1 l2.length).length = l2.length)
    ∧ (∀ l1 l2 : List ℚ, l1.length < l2.length → l1 ≠ [] →
        trim_to_same_length l1 l2 = (l1, decimateSpec l2 l1.length))
    ∧ calculate_file_correlation_pc_data
        [0, 1, 2, 3, 4, 5, 6, 7, 8, 9, 10, 11, 12, 13, 14, 15, 16, 17, 18, 19]
        [20, 21, 22, 23, 24, 25, 26, 27, 28, 29]
        = some ([0, 2, 4, 6, 8, 10, 12, 14, 16, 18],
                [20, 21, 22, 23, 24, 25, 26, 27, 28, 29]) := by
  have key : ∀ l1 l2 : List ℚ, l2.length < l1.length → l2 ≠ [] →
      trimLoop l1 (max 1 (l1.length / l2.length)) l2.length 0 []
        = decimateSpec l1 l2.length := by
    intro l1 l2 hlt hne
    have h2pos : 0 < l2.length := List.length_pos.mpr hne
    have hstep : 1 ≤ l1.length / l2.length :=
      (Nat.one_le_div_iff h2pos).mpr (Nat.le_of_lt hlt)
    have hmax : max 1 (l1.length / l2.length) = l1.length / l2.length :=
      Nat.max_eq_right hstep
    rw [hmax, trimLoop_eq l1 (l1.length / l2.length) l2.length l2.length 0 [] (by simp)]
    · rw [decimateSpec]
      simp
    · intro k hkm
      have hmul : l2.length * (l1.length / l2.length) ≤ l1.length := by
        rw [Nat.mul_comm]
        exact Nat.div_mul_le_self _ _
      have hk1 : (k + 1) * (l1.length / l2.length) ≤ l2.length * (l1.length / l2.length) :=
        Nat.mul_le_mul_right _ (by omega)
      have harith : (k + 1) * (l1.length / l2.length)
          = k * (l1.length / l2.length) + l1.length / l2.length := by ring
      omega
  refine ⟨?_, ?_, ?_⟩
  · intro l1 l2 hlt hne
    constructor
    · rw [trim_to_same_length, if_neg (by
        have := List.length_pos.mpr hne
        omega), if_pos hlt, key l1 l2 hlt hne]
    · rw [decimateSpec]
      simp
  · intro l1 l2 hlt hne
    rw [trim_to_same_length, if_neg (by
        have := List.length_pos.mpr hne
        omega), if_neg (by omega), if_pos hlt, key l2 l1 hlt hne]
  · have ht : trim_to_same_length
        [0, 1, 2, 3, 4, 5, 6, 7, 8, 9, 10, 11, 12, 13, 14, 15, 16, 17, 18, 19]
        [20, 21, 22, 23, 24, 25, 26, 27, 28, 29]
        = (decimateSpec
            [0, 1, 2, 3, 4, 5, 6, 7, 8, 9, 10, 11, 12, 13, 14, 15, 16, 17, 18, 19]
            ([20, 21, 22, 23, 24, 25, 26, 27, 28, 29] : List ℚ).length,
           [20, 21, 22, 23, 24, 25, 26, 27, 28, 29]) := by
      rw [trim_to_same_length, if_neg (by simp), if_pos (by simp),
        key _ _ (by simp) (by simp)]
    rw [calculate_file_correlation_pc_data, if_neg (by simp), ht]
    norm_num [decimateSpec, List.range_succ]

/-- Witness for C6 at concrete lists of lengths 3 and 1: the longer
series is decimated with stride 3 to the single element at index 0. -/
theorem trim_to_same_length_decimates_witness :
    ([(5 : ℚ), 6, 7].length > [(9 : ℚ)].length ∧ ([(9 : ℚ)] : List ℚ) ≠ [])
    ∧ trim_to_same_length [(5 : ℚ), 6, 7] [(9 : ℚ)]
        = (decimateSpec [(5 : ℚ), 6, 7] 1, [(9 : ℚ)]) :=
  ⟨⟨by decide, by decide⟩,
    (trim_to_same_length_decimates.1 [(5 : ℚ), 6, 7] [(9 : ℚ)]
      (by decide) (by decide)).1⟩

/-- C6 counterexample: for series of lengths 20 and 10 the batch
correlation tool (correlation_generation.cpp) computes its sums over
the first 10 elements of the longer series, not over the stride-2
decimation the claim describes. -/
theorem correlation_generation_truncates_not_decimates :
    calculate_file_correlation_data
        [0, 1, 2, 3, 4, 5, 6, 7, 8, 9, 10, 11, 12, 13, 14, 15, 16, 17, 18, 19]
        [20, 21, 22, 23, 24, 25, 26, 27, 28, 29]
      = some ([0, 1, 2, 3, 4, 5, 6, 7, 8, 9],
              [20, 21, 22, 23, 24, 25, 26, 27, 28, 29])
    ∧ ([0, 1, 2, 3, 4, 5, 6, 7, 8, 9] : List ℚ)
        ≠ decimateSpec
            [0, 1, 2, 3, 4, 5, 6, 7, 8, 9, 10, 11, 12, 13, 14, 15, 16, 17, 18, 19] 10 := by
  constructor
  · norm_num [calculate_file_correlation_data]
  · intro h
    have h1 : ((([0, 1, 2, 3, 4, 5, 6, 7, 8, 9] : List ℚ)).getD 1 0) = 1 := by norm_num
    have h2 : ((decimateSpec
        [0, 1, 2, 3, 4, 5, 6, 7, 8, 9, 10, 11, 12, 13, 14, 15, 16, 17, 18, 19] 10).getD 1 0)
        = 2 := by norm_num [decimateSpec]
    rw [h] at h1
    rw [h1] at h2
    norm_num at h2

/-! ## Weighted overall correlation

Embeddings of calculate_weighted_correlation from price_correlation.cpp
lines 203–230 (with the has_valid_correlation flag and the 10⁻⁹
epsilon) and from correlation_generation.cpp lines 69–92 (with the
emptiness check and the 10⁻⁷ epsilon).  Component correlations are
Option ℚ, a missing component being none; 0.125 is exactly 1/8 in
double, and all weight sums below are exact in double arithmetic. -/

/-- calculate_weighted_correlation of price_correlation.cpp: fold the
valid components into (weighted_sum, total_weight, has_valid), then
return none when nothing was valid or the total weight is below 10⁻⁹. -/
def calculate_weighted_correlation (correlations : List (Option ℚ)) (weights : List ℚ) :
    Option ℚ :=
  if correlations.length ≠ weights.length then none
  else
    let z := (correlations.zip weights).foldl
      (fun (acc : ℚ × ℚ × Bool) cw =>
        match cw.1 with
        | some c => (acc.1 + c * cw.2, acc.2.1 + cw.2, true)
        | none => acc) ((0 : ℚ), (0 : ℚ), false)
    if ¬ z.2.2 ∨ |z.2.1| < (1 : ℚ) / 1000000000 then none
    else some (z.1 / z.2.1)

/-- calculate_weighted_correlation of correlation_generation.cpp: no
validity flag, sums only, and the guard sum_weights < 10⁻⁷. -/
def calculate_weighted_correlation_gen (correlations : List (Option ℚ)) (weights : List ℚ) :
    Option ℚ :=
  if correlations.isEmpty ∨ correlations.length ≠ weights.length then none
  else
    let z := (correlations.zip weights).foldl
      (fun (acc : ℚ × ℚ) cw =>
        match cw.1 with
        | some c => (acc.1 + c * cw.2, acc.2 + cw.2)
        | none => acc) ((0 : ℚ), (0 : ℚ))
    if z.2 < 1 / 10000000 then none
    else some (z.1 / z.2)

/-- The seven equal component weights both programs build
(std::vector of seven 0.125 entries). -/
def sevenWeights : List ℚ := List.replicate 7 (1 / 8)

lemma wc_foldl (cs : List (Option ℚ)) (w s t : ℚ) (b : Bool) :
    (cs.zip (List.replicate cs.length w)).foldl
      (fun (acc : ℚ × ℚ × Bool) cw =>
        match cw.1 with
        | some c => (acc.1 + c * cw.2, acc.2.1 + cw.2, true)
        | none => acc) (s, t, b)
    = (s + cs.reduceOption.sum * w, t + (cs.reduceOption.length : ℚ) * w,
        b || !cs.reduceOption.isEmpty) := by
  induction cs generalizing s t b with
  | nil => simp
  | cons c tl ih =>
    cases c with
    | none =>
      simp only [List.length_cons, List.replicate_succ, List.zip_cons_cons, List.foldl_cons,
        List.reduceOption_cons_of_none]
      exact ih s t b
    | some x =>
      simp only [List.length_cons, List.replicate_succ, List.zip_cons_cons, List.foldl_cons,
        List.reduceOption_cons_of_some]
      rw [ih]
      simp only [List.sum_cons, List.length_cons, List.isEmpty_cons, Bool.or_true,
        Prod.mk.injEq]
      refine ⟨by ring, by push_cast; ring, by simp⟩

lemma wcg_foldl (cs : List (Option ℚ)) (w s t : ℚ) :
    (cs.zip (List.replicate cs.length w)).foldl
      (fun (acc : ℚ × ℚ) cw =>
        match cw.1 with
        | some c => (acc.1 + c * cw.2, acc.2 + cw.2)
        | none => acc) (s, t)
    = (s + cs.reduceOption.sum * w, t + (cs.reduceOption.length : ℚ) * w) := by
  induction cs generalizing s t with
  | nil => simp
  | cons c tl ih =>
    cases c with
    | none =>
      simp only [List.length_cons, List.replicate_succ, List.zip_cons_cons, List.foldl_cons,
        List.reduceOption_cons_of_none]
      exact ih s t
    | some x =>
      simp only [List.length_cons, List.replicate_succ, List.zip_cons_cons, List.foldl_cons,
        List.reduceOption_cons_of_some]
      rw [ih]
      simp only [List.sum_cons, List.length_cons, Prod.mk.injEq]
      refine ⟨by ring, by push_cast; ring⟩

/-- C7: with the seven components weighted 1/8 each, both
implementations of the overall score return none when no component is
valid, and otherwise return Σ(valid·weight)/Σ(valid weights) — which,
the weights being equal, is the plain mean of the valid components,
normalised by the sum of the weights actually present and not by 1. -/
theorem overall_correlation_is_mean_of_valid (cs : List (Option ℚ)) (h7 : cs.length = 7) :
    calculate_weighted_correlation cs sevenWeights =
      (if cs.reduceOption = [] then none
       else some (cs.reduceOption.sum / (cs.reduceOption.length : ℚ)))
    ∧ calculate_weighted_correlation_gen cs sevenWeights =
      (if cs.reduceOption = [] then none
       else some (cs.reduceOption.sum / (cs.reduceOption.length : ℚ))) := by
  have hw : sevenWeights = List.replicate cs.length (1 / 8) := by
    rw [h7]; rfl
  have hlen : sevenWeights.length = cs.length := by rw [hw, List.length_replicate]
  have hne : ¬ cs.isEmpty := by
    cases cs with
    | nil => simp at h7
    | cons a l => simp
  constructor
  · rw [calculate_weighted_correlation, if_neg (by omega), hw, wc_foldl]
    by_cases hv : cs.reduceOption = []
    · simp [hv]
    · have hlen1 : 1 ≤ cs.reduceOption.length := by
        cases hcr : cs.reduceOption with
        | nil => exact absurd hcr hv
        | cons a l => simp
      have hlenpos : (0 : ℚ) < (cs.reduceOption.length : ℚ) := by
        exact_mod_cast Nat.lt_of_lt_of_le Nat.zero_lt_one hlen1
      have habs : ¬ |(0 : ℚ) + (cs.reduceOption.length : ℚ) * (1 / 8)| < 1 / 1000000000 := by
        rw [zero_add, abs_of_pos (by positivity)]
        have : (1 : ℚ) * (1 / 8) ≤ (cs.reduceOption.length : ℚ) * (1 / 8) := by
          apply mul_le_mul_of_nonneg_right _ (by norm_num)
          exact_mod_cast hlen1
        linarith
      have hflag : (false || !cs.reduceOption.isEmpty) = true := by
        simp [List.isEmpty_iff, hv]
      simp only [hflag, habs, not_true, false_or, if_false, if_neg hv]
      congr 1
      rw [zero_add, zero_add, mul_div_mul_right _ _ (by norm_num : (1 : ℚ) / 8 ≠ 0)]
  · rw [calculate_weighted_correlation_gen, if_neg (by simp [hne]; omega), hw, wcg_foldl]
    by_cases hv : cs.reduceOption = []
    · simp [hv]
    · have hlen1 : 1 ≤ cs.reduceOption.length := by
        cases hcr : cs.reduceOption with
        | nil => exact absurd hcr hv
        | cons a l => simp
      have hsm : ¬ ((0 : ℚ) + (cs.reduceOption.length : ℚ) * (1 / 8)) < 1 / 10000000 := by
        rw [zero_add]
        have : (1 : ℚ) * (1 / 8) ≤ (cs.reduceOption.length : ℚ) * (1 / 8) := by
          apply mul_le_mul_of_nonneg_right _ (by norm_num)
          exact_mod_cast hlen1
        linarith
      simp only [hsm, if_false, if_neg hv]
      congr 1
      rw [zero_add, zero_add, mul_div_mul_right _ _ (by norm_num : (1 : ℚ) / 8 ≠ 0)]

/-- Witness for C7 at a concrete component list: two valid components
1 and 1/2 give overall (1 + 1/2)·(1/8) / (2·(1/8)) = 3/4. -/
theorem overall_correlation_is_mean_of_valid_witness :
    calculate_weighted_correlation
      [some 1, some (1/2), none, none, none, none, none] sevenWeights = some (3 / 4) := by
  have h := (overall_correlation_is_mean_of_valid
    [some 1, some (1/2), none, none, none, none, none] (by rfl)).1
  have h2 : ([some 1, some (1/2), none, none, none, none, none] :
      List (Option ℚ)).reduceOption = [1, 1/2] := rfl
  rw [h, h2, if_neg (by simp)]
  norm_num

/-! ## Consolidated snapshot builder (process_merged_tops.cpp)

create_snapshot folds the per-venue latest-quote map (a std::map
keyed by feed_id, iterated in ascending key order) into per-price
accumulators (std::map keyed by price, values appended in iteration
order), sorts bid prices descending and ask prices ascending, takes up
to three non-empty price levels per side, and sorts the venues within
a level with VenueData::operator<, which compares feed_id first and
quantity second. -/

/-- VenueData of process_merged_tops.cpp: a quantity contributed by a
venue, tagged with the venue's feed id. -/
structure VenueData where
  quantity : Nat
  feed_id : Nat
deriving DecidableEq, Repr

/-- VenueData::operator< (process_merged_tops.cpp lines 81–84):
compare by feed_id first, quantity second. -/
def VenueData.ltb (a b : VenueData) : Bool :=
  if a.feed_id ≠ b.feed_id then decide (a.feed_id < b.feed_id)
  else decide (a.quantity < b.quantity)

/-- One aggregated price level: the price and the contributing venues. -/
structure SnapshotLevel where
  price : Int
  venues : List VenueData
deriving DecidableEq, Repr

/-- ParsedTopsLevelData: the twelve per-level fields cached for one
venue (prices in nanos, quantities uint32; zero defaults as in the
C++ member initializers). -/
structure ParsedTopsLevelData where
  l1bp : Int := 0
  l1ap : Int := 0
  l1bq : Nat := 0
  l1aq : Nat := 0
  l2bp : Int := 0
  l2ap : Int := 0
  l2bq : Nat := 0
  l2aq : Nat := 0
  l3bp : Int := 0
  l3ap : Int := 0
  l3bq : Nat := 0
  l3aq : Nat := 0
deriving DecidableEq, Repr

/-- Insertion step for sorting venues with VenueData::operator<. -/
def insertVen (v : VenueData) : List VenueData → List VenueData
  | [] => [v]
  | w :: ws => if VenueData.ltb v w then v :: w :: ws else w :: insertVen v ws

/-- Sorting a venue vector by VenueData::operator< (std::sort; the
comparator is a strict total order on the pairs, so the sorted
sequence is unique and insertion sort yields it). -/
def sortVenues (l : List VenueData) : List VenueData := l.foldr insertVen []

/-- Insertion into the std::map price accumulator: keys kept in
ascending order, a venue entry appended to the vector of its price. -/
def mapAdd (price : Int) (v : VenueData) :
    List (Int × List VenueData) → List (Int × List VenueData)
  | [] => [(price, [v])]
  | (p, vs) :: rest =>
    if price < p then (price, [v]) :: (p, vs) :: rest
    else if price = p then (p, vs ++ [v]) :: rest
    else (p, vs) :: mapAdd price v rest

/-- The present bid levels of one venue record, in level order 1,2,3
(a level is present iff price != 0 and qty > 0). -/
def bidEntries (f : Nat) (r : ParsedTopsLevelData) : List (Int × VenueData) :=
  (if r.l1bp ≠ 0 ∧ 0 < r.l1bq then [(r.l1bp, ⟨r.l1bq, f⟩)] else [])
    ++ (if r.l2bp ≠ 0 ∧ 0 < r.l2bq then [(r.l2bp, ⟨r.l2bq, f⟩)] else [])
    ++ (if r.l3bp ≠ 0 ∧ 0 < r.l3bq then [(r.l3bp, ⟨r.l3bq, f⟩)] else [])

/-- The present ask levels of one venue record, in level order 1,2,3. -/
def askEntries (f : Nat) (r : ParsedTopsLevelData) : List (Int × VenueData) :=
  (if r.l1ap ≠ 0 ∧ 0 < r.l1aq then [(r.l1ap, ⟨r.l1aq, f⟩)] else [])
    ++ (if r.l2ap ≠ 0 ∧ 0 < r.l2aq then [(r.l2ap, ⟨r.l2aq, f⟩)] else [])
    ++ (if r.l3ap ≠ 0 ∧ 0 < r.l3aq then [(r.l3ap, ⟨r.l3aq, f⟩)] else [])

/-- Builds the std::map price accumulator from the entries produced by
iterating the venue map in feed order. -/
def buildAcc (entries : List (Int × VenueData)) : List (Int × List VenueData) :=
  entries.foldl (fun acc pv => mapAdd pv.1 pv.2 acc) []

/-- Collects up to n price levels in the given key order, skipping
empty venue vectors (which cannot occur for existing keys), sorting
the venues of each level. -/
def takeLevels (lookupF : Int → List VenueData) : List Int → Nat → List SnapshotLevel
  | [], _ => []
  | p :: ps, n =>
    if n = 0 then []
    else match lookupF p with
      | [] => takeLevels lookupF ps n
      | v :: vs => ⟨p, sortVenues (v :: vs)⟩ :: takeLevels lookupF ps (n - 1)

/-- create_snapshot (process_merged_tops.cpp lines 109–159): aggregate
all present levels of all venues by price and return (top-3 bids by
descending price, top-3 asks by ascending price), venues within a
level sorted by (feed_id, quantity). -/
def create_snapshot (latest : List (Nat × ParsedTopsLevelData)) :
    List SnapshotLevel × List SnapshotLevel :=
  let bidsAcc := buildAcc (latest.flatMap fun fr => bidEntries fr.1 fr.2)
  let asksAcc := buildAcc (latest.flatMap fun fr => askEntries fr.1 fr.2)
  (takeLevels (fun p => ((bidsAcc.lookup p).getD [])) ((bidsAcc.map Prod.fst).reverse) 3,
   takeLevels (fun p => ((asksAcc.lookup p).getD [])) (asksAcc.map Prod.fst) 3)

/-- C8 counterexample: with venue 1 quoting bid 100@10 and venue 2
quoting bids 100@7 and 99@5, the level-1 venue list is NOT
[(qty=7, feed=2), (qty=10, feed=1)]: VenueData::operator< sorts by
feed_id first, so venue 1 comes first. -/
theorem create_snapshot_venue_order_counterexample :
    (create_snapshot
        [(1, { l1bp := 100, l1bq := 10 }),
         (2, { l1bp := 100, l1bq := 7, l2bp := 99, l2bq := 5 })]).1
      ≠ [⟨100, [⟨7, 2⟩, ⟨10, 1⟩]⟩, ⟨99, [⟨5, 2⟩]⟩] := by
  decide

/-- C8 amended: the aggregated bid side is level 1 at price 100 with
venues [(qty=10, feed=1), (qty=7, feed=2)] — ordered by feed id, not
by quantity — and level 2 at price 99 with venues [(qty=5, feed=2)];
the ask side is empty. -/
theorem create_snapshot_aggregation :
    create_snapshot
        [(1, { l1bp := 100, l1bq := 10 }),
         (2, { l1bp := 100, l1bq := 7, l2bp := 99, l2bq := 5 })]
      = ([⟨100, [⟨10, 1⟩, ⟨7, 2⟩]⟩, ⟨99, [⟨5, 2⟩]⟩], []) := by
  decide

/-! ## Snapshot stream generation and header patching
(process_merged_tops.cpp main) -/

/-- One price level of a tops record (prices in nanos). -/
structure TopLevelData where
  bid_price : Int := 0
  ask_price : Int := 0
  bid_qty : Nat := 0
  ask_qty : Nat := 0
deriving DecidableEq, Repr

/-- A decoded 88-byte tops record. -/
structure TopsRecord where
  ts : Nat := 0
  seqno : Nat := 0
  level1 : TopLevelData := {}
  level2 : TopLevelData := {}
  level3 : TopLevelData := {}
deriving DecidableEq, Repr

/-- A decoded 96-byte merged-tops entry: the 8-byte original feed id
prefix followed by a tops record. -/
structure MergedTopsEntry where
  feed : Nat
  record : TopsRecord
deriving DecidableEq, Repr

/-- The 24-byte file header (feed_id u64, dateint u32, count u32,
symbol_idx u64). -/
structure FileHeader where
  feed_id : Nat
  dateint : Nat
  count : Nat
  symbol_idx : Nat
deriving DecidableEq, Inhabited, Repr

/-- Copies the twelve level fields of a tops record into the venue
cache entry, as the main loop of process_merged_tops.cpp does. -/
def parseLevels (r : TopsRecord) : ParsedTopsLevelData :=
  { l1bp := r.level1.bid_price, l1ap := r.level1.ask_price,
    l1bq := r.level1.bid_qty, l1aq := r.level1.ask_qty,
    l2bp := r.level2.bid_price, l2ap := r.level2.ask_price,
    l2bq := r.level2.bid_qty, l2aq := r.level2.ask_qty,
    l3bp := r.level3.bid_price, l3ap := r.level3.ask_price,
    l3bq := r.level3.bid_qty, l3aq := r.level3.ask_qty }

/-- std::map insert-or-assign on the venue cache, keys in ascending
order (latest_venue_quotes[feed] = data). -/
def mapSet : List (Nat × ParsedTopsLevelData) → Nat → ParsedTopsLevelData →
    List (Nat × ParsedTopsLevelData)
  | [], f, d => [(f, d)]
  | (k, v) :: rest, f, d =>
    if f < k then (f, d) :: (k, v) :: rest
    else if f = k then (k, d) :: rest
    else (k, v) :: mapSet rest f d

/-- An emitted consolidated snapshot: timestamp plus the two level
sequences (the framed wire format is determined by these fields). -/
structure Snapshot where
  timestamp : Nat
  bids : List SnapshotLevel
  asks : List SnapshotLevel
deriving DecidableEq, Repr

/-- The main loop of process_merged_tops.cpp: update the venue cache
from each entry, rebuild the aggregated book, and emit a snapshot iff
it is non-empty and differs from the last emitted one. -/
def processLoop : List MergedTopsEntry → List (Nat × ParsedTopsLevelData) →
    List SnapshotLevel → List SnapshotLevel → List Snapshot
  | [], _, _, _ => []
  | e :: rest, latest, lastB, lastA =>
    let latest' := mapSet latest e.feed (parseLevels e.record)
    let s := create_snapshot latest'
    if (s.1 ≠ [] ∨ s.2 ≠ []) ∧ (s.1 ≠ lastB ∨ s.2 ≠ lastA) then
      ⟨e.record.ts, s.1, s.2⟩ :: processLoop rest latest' s.1 s.2
    else processLoop rest latest' lastB lastA

/-- process_merged_tops.cpp main, after decoding: the snapshots
emitted for the input stream and the final header patched at offset 0
(feed_id := 0, the PROCESSED_SNAPSHOT_FILE_FEED_ID constant; dateint
and symbol_idx copied from the input header; count := number of
snapshots written, a uint32). -/
def process_merged_tops (h : FileHeader) (entries : List MergedTopsEntry) :
    FileHeader × List Snapshot :=
  let snaps := processLoop entries [] [] []
  ({ feed_id := 0, dateint := h.dateint, count := snaps.length % 4294967296,
     symbol_idx := h.symbol_idx }, snaps)

/-- The output file left on disk by process_merged_tops.cpp main:
the program unconditionally seeks to offset 0, writes the final
header and closes; it has no removal branch on any path, so the file
(modelled as some content) is always kept, even with zero snapshots. -/
def process_merged_tops_file (h : FileHeader) (entries : List MergedTopsEntry) :
    Option (FileHeader × List Snapshot) :=
  some (process_merged_tops h entries)

/-- C10: when no snapshot is emitted, the snapshot builder still
leaves an output file consisting only of the final header, with
feed_id = 0, count = 0 and dateint/symbol_idx copied from the input
header. -/
theorem snapshot_builder_keeps_empty_output (h : FileHeader)
    (entries : List MergedTopsEntry)
    (hz : (process_merged_tops h entries).2 = []) :
    process_merged_tops_file h entries
      = some ({ feed_id := 0, dateint := h.dateint, count := 0,
                symbol_idx := h.symbol_idx }, []) := by
  have hz' : processLoop entries [] [] [] = [] := by
    simpa [process_merged_tops] using hz
  simp [process_merged_tops_file, process_merged_tops, hz']

/-- Witness for C10: a single merged entry whose record has no present
level produces zero snapshots, and the header-only output file stays. -/
theorem snapshot_builder_keeps_empty_output_witness :
    (process_merged_tops ⟨7, 20240102, 5, 3⟩ [⟨4, { ts := 1000, seqno := 1 }⟩]).2 = []
    ∧ process_merged_tops_file ⟨7, 20240102, 5, 3⟩ [⟨4, { ts := 1000, seqno := 1 }⟩]
        = some ({ feed_id := 0, dateint := 20240102, count := 0, symbol_idx := 3 }, []) :=
  ⟨by decide,
    snapshot_builder_keeps_empty_output ⟨7, 20240102, 5, 3⟩
      [⟨4, { ts := 1000, seqno := 1 }⟩] (by decide)⟩

/-! ## Trade-driven bar aggregation (parse_book_fills.cpp)

read_data_and_generate_bars folds the decoded fill records into
per-second OHLCV bars.  The current bar's bucket is held in a
time_point whose count() == 0 doubles as the "no current bar yet"
sentinel; the bucket key is floor(ts_ns / 10⁹).  Prices are
double(trade_price)/1e9, modelled in ℚ (the fold only copies and
compares them); the volume accumulator is an int32_t fed by uint32
trade quantities, so it is reduced to int32 range explicitly. -/

/-- A decoded input record: its leading 8-byte timestamp plus the rest
of the record bytes, abstracted as an opaque payload. -/
structure MRec where
  ts : Nat
  payload : Nat
deriving DecidableEq, Inhabited, Repr

/-- HeapItem of merged_book_generation.cpp: timestamp key, record
data, index of the source stream, and the source feed id. -/
structure HeapItem where
  ts : Nat
  record : MRec
  idx : Nat
  feed : Nat
deriving DecidableEq, Inhabited, Repr

/-- Timestamp key at heap slot i (out-of-range reads never happen in
the verified paths; they default). -/
def keyAt (l : List HeapItem) (i : Nat) : Nat := (l.getD i default).ts

/-- __push_heap of libstdc++: starting from the hole, while the hole
is not the root and the parent's key is strictly greater than the
value's key (HeapItem::operator>), pull the parent down; finally store
the value in the hole. -/
def pushHeapLoop (l : List HeapItem) (hole : Nat) (v : HeapItem) : List HeapItem :=
  if h : 0 < hole ∧ v.ts < keyAt l ((hole - 1) / 2) then
    pushHeapLoop (l.set hole (l.getD ((hole - 1) / 2) default)) ((hole - 1) / 2) v
  else l.set hole v
termination_by hole
decreasing_by exact Nat.lt_of_le_of_lt (Nat.div_le_self _ 2) (by omega)

/-- std::priority_queue::push: append the value, then sift it up from
the last slot. -/
def pushHeap (l : List HeapItem) (v : HeapItem) : List HeapItem :=
  pushHeapLoop (l ++ [v]) l.length v

/-- Phase one of __adjust_heap: while the hole has two children inside
the range, move the child with the smaller key (the right child on
equal keys) into the hole and descend; returns the array and the final
hole index. -/
def adjustLoop (l : List HeapItem) (sc len : Nat) : List HeapItem × Nat :=
  if h : sc < (len - 1) / 2 then
    let c2 := 2 * (sc + 1)
    let c := if keyAt l (c2 - 1) < keyAt l c2 then c2 - 1 else c2
    adjustLoop (l.set sc (l.getD c default)) c len
  else (l, sc)
termination_by len - sc
decreasing_by
  have hc2 : 2 * (sc + 1) ≤ len - 1 := by omega
  split <;> omega

/-- __adjust_heap of libstdc++ on the range [0, len): sift the hole at
the root to the bottom, move the single left child up when the range
length is even and the hole stopped at its parent, then __push_heap
the carried value from the final hole. -/
def adjustHeap (l : List HeapItem) (len : Nat) (v : HeapItem) : List HeapItem :=
  let z := adjustLoop l 0 len
  if len % 2 = 0 ∧ z.2 = (len - 2) / 2 then
    pushHeapLoop (z.1.set z.2 (z.1.getD (2 * (z.2 + 1) - 1) default)) (2 * (z.2 + 1) - 1) v
  else pushHeapLoop z.1 z.2 v

/-- std::priority_queue::pop: the popped element is the front; for
sizes above one, std::pop_heap moves the last element out as the
carried value, parks the old front in the last slot (then removed by
pop_back) and runs __adjust_heap on the remaining range. -/
def popHeap : List HeapItem → HeapItem × List HeapItem
  | [] => (default, [])
  | [x] => (x, [])
  | x :: y :: ys =>
    (x, adjustHeap ((x :: y :: ys).dropLast) (ys.length + 1)
      ((y :: ys).getLast (List.cons_ne_nil y ys)))

lemma pushHeapLoop_length (l : List HeapItem) (hole : Nat) (v : HeapItem) :
    (pushHeapLoop l hole v).length = l.length := by
  have H : ∀ (n : Nat) (l : List HeapItem) (hole : Nat) (v : HeapItem), hole ≤ n →
      (pushHeapLoop l hole v).length = l.length := by
    intro n
    induction n with
    | zero =>
      intro l hole v hle
      rw [pushHeapLoop, dif_neg (by omega)]
      simp
    | succ m ih =>
      intro l hole v hle
      rw [pushHeapLoop]
      split
      · next h => rw [ih _ _ _ (by omega)]; simp
      · simp
  exact H hole l hole v (Nat.le_refl _)

lemma pushHeap_length (l : List HeapItem) (v : HeapItem) :
    (pushHeap l v).length = l.length + 1 := by
  rw [pushHeap, pushHeapLoop_length]
  simp

lemma adjustLoop_length (l : List HeapItem) (sc len : Nat) :
    (adjustLoop l sc len).1.length = l.length := by
  have H : ∀ (n : Nat) (l : List HeapItem) (sc : Nat), len - sc ≤ n →
      (adjustLoop l sc len).1.length = l.length := by
    intro n
    induction n with
    | zero =>
      intro l sc hle
      rw [adjustLoop, dif_neg (by omega)]
    | succ m ih =>
      intro l sc hle
      rw [adjustLoop]
      split
      · next h =>
        by_cases hc : keyAt l (2 * (sc + 1) - 1) < keyAt l (2 * (sc + 1))
        · simp only [if_pos hc]
          rw [ih _ _ (by omega)]; simp
        · simp only [if_neg hc]
          rw [ih _ _ (by omega)]; simp
      · rfl
  exact H len l sc (Nat.sub_le _ _)

lemma adjustHeap_length (l : List HeapItem) (len : Nat) (v : HeapItem) :
    (adjustHeap l len v).length = l.length := by
  rw [adjustHeap]
  split
  · rw [pushHeapLoop_length]
    simp [adjustLoop_length]
  · rw [pushHeapLoop_length, adjustLoop_length]

lemma popHeap_length (l : List HeapItem) (h : l ≠ []) :
    (popHeap l).2.length = l.length - 1 := by
  match l with
  | [x] => simp [popHeap]
  | x :: y :: ys => simp [popHeap, adjustHeap_length]

lemma sum_map_length_set (streams : List (List MRec)) (i : Nat) (tl : List MRec)
    (h : i < streams.length) :
    ((streams.set i tl).map List.length).sum + (streams.getD i []).length
      = (streams.map List.length).sum + tl.length := by
  induction streams generalizing i with
  | nil => simp at h
  | cons s ss ih =>
    cases i with
    | zero => simp; omega
    | succ j =>
      simp only [List.set_cons_succ, List.map_cons, List.sum_cons, List.getD_cons_succ]
      have := ih j (by simpa using h)
      omega

lemma getD_ne_nil_lt (streams : List (List MRec)) (i : Nat)
    (h : streams.getD i [] ≠ []) : i < streams.length := by
  by_contra hge
  rw [List.getD_eq_default _ _ (by omega)] at h
  exact h rfl

/-- One opened input of the merger: its decoded 24-byte header and its
decoded record stream. -/
structure MInput where
  header : FileHeader
  recs : List MRec
deriving DecidableEq, Inhabited, Repr

/-- The setup loop of merge_files_for_symbol_by_timestamp: for each
successfully opened input, in order, read its first record and push it
with the input's stream index and header feed id. -/
def initHeapFrom (k : Nat) (h : List HeapItem) : List MInput → List HeapItem
  | [] => h
  | inp :: rest =>
    match inp.recs with
    | [] => initHeapFrom (k + 1) h rest
    | r :: _ => initHeapFrom (k + 1) (pushHeap h ⟨r.ts, r, k, inp.header.feed_id⟩) rest

/-- The heap after the setup loop. -/
def initHeap (inputs : List MInput) : List HeapItem := initHeapFrom 0 [] inputs

/-- The per-stream cursors after the setup loop: each input's records
past the one already in the heap. -/
def initStreams (inputs : List MInput) : List (List MRec) :=
  inputs.map (fun inp => inp.recs.tail)

/-- The merge loop: pop the top item, emit its feed id and record,
read the next record of the popped item's stream and push it (tagged
with the same stream index and feed id) if the stream is not
exhausted. -/
def mergeLoop (streams : List (List MRec)) (heap : List HeapItem) : List (Nat × MRec) :=
  if hne : heap.isEmpty then []
  else
    match hs : streams.getD (popHeap heap).1.idx [] with
    | [] =>
      ((popHeap heap).1.feed, (popHeap heap).1.record) :: mergeLoop streams (popHeap heap).2
    | r :: tl =>
      ((popHeap heap).1.feed, (popHeap heap).1.record) ::
        mergeLoop (streams.set (popHeap heap).1.idx tl)
          (pushHeap (popHeap heap).2 ⟨r.ts, r, (popHeap heap).1.idx, (popHeap heap).1.feed⟩)
termination_by heap.length + (streams.map List.length).sum
decreasing_by
  · have hne' : heap ≠ [] := by simpa [List.isEmpty_iff] using hne
    have h1 := popHeap_length heap hne'
    have h2 : 0 < heap.length := List.length_pos.mpr hne'
    omega
  · have hne' : heap ≠ [] := by simpa [List.isEmpty_iff] using hne
    have h1 := popHeap_length heap hne'
    have h2 : 0 < heap.length := List.length_pos.mpr hne'
    have hlt : (popHeap heap).1.idx < streams.length :=
      getD_ne_nil_lt streams _ (by rw [hs]; simp)
    have hsum := sum_map_length_set streams (popHeap heap).1.idx tl hlt
    rw [hs] at hsum
    rw [pushHeap_length]
    simp only [List.length_cons] at hsum
    omega

/-- The full record stream emitted by
merge_files_for_symbol_by_timestamp for the given opened inputs. -/
def merge_streams (inputs : List MInput) : List (Nat × MRec) :=
  mergeLoop (initStreams inputs) (initHeap inputs)

/-- merge_files_for_symbol_by_timestamp after opening the inputs: the
output file left on disk, or none when no file is kept.  none when the
initial heap is empty (no output file is produced), or when zero
records were written (the 24-byte all-zero placeholder file is
removed).  The record counter total_records_merged is a uint32 and
the final-patch branch tests its wrapped value: when the emitted
count mod 2^32 is positive, the final header — the first opened
input's header with only the uint32 count field replaced by the
wrapped count — is patched over the placeholder; when the emitted
count is a positive multiple of 2^32 the wrapped counter is 0, the
patch is skipped, and the kept file still starts with the all-zero
placeholder header. -/
def merge_files (inputs : List MInput) : Option (FileHeader × List (Nat × MRec)) :=
  if (initHeap inputs).isEmpty then none
  else
    if 0 < (merge_streams inputs).length % 4294967296 then
      some ({ (inputs.headD default).header with
              count := (merge_streams inputs).length % 4294967296 },
            merge_streams inputs)
    else
      if (merge_streams inputs).isEmpty then none
      else some (⟨0, 0, 0, 0⟩, merge_streams inputs)

/-! ### Fuel-based twins of the heap and merge loops

The loop definitions above use well-founded recursion, which the
kernel does not unfold during reduction; these structurally recursive
twins take an explicit fuel argument, are proved equal to the loops
whenever the fuel covers the loop bound, and let the concrete example
runs be settled by decide. -/

/-- Fuel twin of pushHeapLoop. -/
def pushHeapLoopF : Nat → List HeapItem → Nat → HeapItem → List HeapItem
  | 0, l, hole, v => l.set hole v
  | n + 1, l, hole, v =>
    if 0 < hole ∧ v.ts < keyAt l ((hole - 1) / 2) then
      pushHeapLoopF n (l.set hole (l.getD ((hole - 1) / 2) default)) ((hole - 1) / 2) v
    else l.set hole v

lemma pushHeapLoopF_eq : ∀ (n : Nat) (l : List HeapItem) (hole : Nat) (v : HeapItem),
    hole ≤ n → pushHeapLoopF n l hole v = pushHeapLoop l hole v := by
  intro n
  induction n with
  | zero =>
    intro l hole v hle
    rw [pushHeapLoopF, pushHeapLoop, dif_neg (by omega)]
  | succ m ih =>
    intro l hole v hle
    rw [pushHeapLoopF, pushHeapLoop]
    split
    · next h => exact ih _ _ _ (by omega)
    · next h => rfl

/-- Fuel twin of pushHeap. -/
def pushHeapF (l : List HeapItem) (v : HeapItem) : List HeapItem :=
  pushHeapLoopF l.length (l ++ [v]) l.length v

lemma pushHeapF_eq (l : List HeapItem) (v : HeapItem) : pushHeapF l v = pushHeap l v := by
  rw [pushHeapF, pushHeap, pushHeapLoopF_eq _ _ _ _ (Nat.le_refl _)]

/-- Fuel twin of adjustLoop. -/
def adjustLoopF : Nat → List HeapItem → Nat → Nat → List HeapItem × Nat
  | 0, l, sc, _ => (l, sc)
  | n + 1, l, sc, len =>
    if sc < (len - 1) / 2 then
      adjustLoopF n
        (l.set sc (l.getD (if keyAt l (2 * (sc + 1) - 1) < keyAt l (2 * (sc + 1))
          then 2 * (sc + 1) - 1 else 2 * (sc + 1)) default))
        (if keyAt l (2 * (sc + 1) - 1) < keyAt l (2 * (sc + 1))
          then 2 * (sc + 1) - 1 else 2 * (sc + 1)) len
    else (l, sc)

lemma adjustLoopF_eq : ∀ (n : Nat) (l : List HeapItem) (sc len : Nat),
    len - sc ≤ n → adjustLoopF n l sc len = adjustLoop l sc len := by
  intro n
  induction n with
  | zero =>
    intro l sc len hle
    rw [adjustLoopF, adjustLoop, dif_neg (by omega)]
  | succ m ih =>
    intro l sc len hle
    rw [adjustLoopF, adjustLoop]
    split
    · next h =>
      by_cases hc : keyAt l (2 * (sc + 1) - 1) < keyAt l (2 * (sc + 1))
      · simp only [if_pos hc]
        exact ih _ _ _ (by omega)
      · simp only [if_neg hc]
        exact ih _ _ _ (by omega)
    · next h => rfl

/-- Fuel twin of adjustHeap. -/
def adjustHeapF (l : List HeapItem) (len : Nat) (v : HeapItem) : List HeapItem :=
  let z := adjustLoopF len l 0 len
  if len % 2 = 0 ∧ z.2 = (len - 2) / 2 then
    pushHeapLoopF (2 * (z.2 + 1) - 1)
      (z.1.set z.2 (z.1.getD (2 * (z.2 + 1) - 1) default)) (2 * (z.2 + 1) - 1) v
  else pushHeapLoopF z.2 z.1 z.2 v

lemma adjustHeapF_eq (l : List HeapItem) (len : Nat) (v : HeapItem) :
    adjustHeapF l len v = adjustHeap l len v := by
  rw [adjustHeapF, adjustHeap, adjustLoopF_eq _ _ _ _ (Nat.sub_le _ _)]
  split
  · rw [pushHeapLoopF_eq _ _ _ _ (Nat.le_refl _)]
  · rw [pushHeapLoopF_eq _ _ _ _ (Nat.le_refl _)]

/-- Fuel twin of popHeap. -/
def popHeapF : List HeapItem → HeapItem × List HeapItem
  | [] => (default, [])
  | [x] => (x, [])
  | x :: y :: ys =>
    (x, adjustHeapF ((x :: y :: ys).dropLast) (ys.length + 1)
      ((y :: ys).getLast (List.cons_ne_nil y ys)))

lemma popHeapF_eq (l : List HeapItem) : popHeapF l = popHeap l := by
  match l with
  | [] => rfl
  | [x] => rfl
  | x :: y :: ys => rw [popHeapF, popHeap, adjustHeapF_eq]

/-- Fuel twin of the setup loop. -/
def initHeapFromF (k : Nat) (h : List HeapItem) : List MInput → List HeapItem
  | [] => h
  | inp :: rest =>
    match inp.recs with
    | [] => initHeapFromF (k + 1) h rest
    | r :: _ => initHeapFromF (k + 1) (pushHeapF h ⟨r.ts, r, k, inp.header.feed_id⟩) rest

lemma initHeapFromF_eq : ∀ (inputs : List MInput) (k : Nat) (h : List HeapItem),
    initHeapFromF k h inputs = initHeapFrom k h inputs := by
  intro inputs
  induction inputs with
  | nil => intro k h; rfl
  | cons inp rest ih =>
    intro k h
    obtain ⟨hdr, recs⟩ := inp
    rw [initHeapFromF, initHeapFrom]
    cases recs with
    | nil => exact ih _ _
    | cons r tl => simp only [pushHeapF_eq]; exact ih _ _

/-- Fuel twin of initHeap. -/
def initHeapF (inputs : List MInput) : List HeapItem := initHeapFromF 0 [] inputs

lemma initHeapF_eq (inputs : List MInput) : initHeapF inputs = initHeap inputs :=
  initHeapFromF_eq inputs 0 []

/-- Fuel twin of the merge loop. -/
def mergeLoopF : Nat → List (List MRec) → List HeapItem → List (Nat × MRec)
  | 0, _, _ => []
  | n + 1, streams, heap =>
    if heap.isEmpty then []
    else
      let t := (popHeapF heap).1
      let rest := (popHeapF heap).2
      match streams.getD t.idx [] with
      | [] => (t.feed, t.record) :: mergeLoopF n streams rest
      | r :: tl =>
        (t.feed, t.record) ::
          mergeLoopF n (streams.set t.idx tl) (pushHeapF rest ⟨r.ts, r, t.idx, t.feed⟩)

lemma mergeLoopF_eq : ∀ (n : Nat) (streams : List (List MRec)) (heap : List HeapItem),
    heap.length + (streams.map List.length).sum ≤ n →
    mergeLoopF n streams heap = mergeLoop streams heap := by
  intro n
  induction n with
  | zero =>
    intro streams heap hle
    have hheap : heap = [] := by
      cases heap with
      | nil => rfl
      | cons a l => simp at hle
    rw [hheap, mergeLoopF, mergeLoop]
    simp
  | succ m ih =>
    intro streams heap hle
    rw [mergeLoopF, mergeLoop]
    by_cases hne : heap.isEmpty
    · rw [if_pos hne, dif_pos hne]
    · rw [if_neg hne, dif_neg hne]
      have hne' : heap ≠ [] := by simpa [List.isEmpty_iff] using hne
      have hlen := popHeap_length heap hne'
      have hpos : 0 < heap.length := List.length_pos.mpr hne'
      simp only [popHeapF_eq]
      rcases hs : streams.getD (popHeap heap).1.idx [] with _ | ⟨r, tl⟩
      · simp only [hs]
        congr 1
        refine ih _ _ ?_
        omega
      · simp only [hs, pushHeapF_eq]
        congr 1
        have hlt : (popHeap heap).1.idx < streams.length :=
          getD_ne_nil_lt streams _ (by rw [hs]; simp)
        have hsum := sum_map_length_set streams (popHeap heap).1.idx tl hlt
        rw [hs] at hsum
        refine ih _ _ ?_
        rw [pushHeap_length]
        simp only [List.length_cons] at hsum
        omega

/-- Fuel twin of merge_streams. -/
def merge_streamsF (inputs : List MInput) : List (Nat × MRec) :=
  mergeLoopF ((initHeapF inputs).length + ((initStreams inputs).map List.length).sum)
    (initStreams inputs) (initHeapF inputs)

lemma merge_streamsF_eq (inputs : List MInput) :
    merge_streamsF inputs = merge_streams inputs := by
  rw [merge_streamsF, merge_streams, initHeapF_eq, mergeLoopF_eq _ _ _ (Nat.le_refl _)]

/-- Fuel twin of merge_files. -/
def merge_filesF (inputs : List MInput) : Option (FileHeader × List (Nat × MRec)) :=
  if (initHeapF inputs).isEmpty then none
  else
    if 0 < (merge_streamsF inputs).length % 4294967296 then
      some ({ (inputs.headD default).header with
              count := (merge_streamsF inputs).length % 4294967296 },
            merge_streamsF inputs)
    else
      if (merge_streamsF inputs).isEmpty then none
      else some (⟨0, 0, 0, 0⟩, merge_streamsF inputs)

lemma merge_filesF_eq (inputs : List MInput) : merge_filesF inputs = merge_files inputs := by
  rw [merge_filesF, merge_files, initHeapF_eq, merge_streamsF_eq]

/-! ### Array access helpers -/

section GetDHelpers

variable {α : Type} (l : List α)

lemma getD_set_self (i : Nat) (a d : α) (h : i < l.length) :
    (l.set i a).getD i d = a := by
  rw [List.getD_eq_getElem _ _ (by simpa using h)]
  exact List.getElem_set_self _

lemma getD_set_ne (i j : Nat) (a d : α) (hne : i ≠ j) :
    (l.set i a).getD j d = l.getD j d := by
  rcases Nat.lt_or_ge j l.length with hj | hj
  · rw [List.getD_eq_getElem _ _ (by simpa using hj), List.getD_eq_getElem _ _ hj]
    exact List.getElem_set_ne hne _
  · rw [List.getD_eq_default _ _ (by simpa using hj), List.getD_eq_default _ _ hj]

lemma set_getD_self (i : Nat) (d : α) (h : i < l.length) :
    l.set i (l.getD i d) = l := by
  rw [List.getD_eq_getElem _ _ h]
  apply List.ext_getElem (by simp)
  intro n h1 h2
  by_cases hn : n = i
  · subst hn
    exact List.getElem_set_self _
  · exact List.getElem_set_ne (fun he => hn he.symm) _

lemma getD_dropLast (i : Nat) (d : α) (h : i < l.length - 1) :
    l.dropLast.getD i d = l.getD i d := by
  rw [List.getD_eq_getElem _ _ (by rw [List.length_dropLast]; omega),
    List.getD_eq_getElem _ _ (by omega)]
  exact List.getElem_dropLast ..

lemma getD_mem (i : Nat) (d : α) (h : i < l.length) : l.getD i d ∈ l := by
  rw [List.getD_eq_getElem _ _ h]
  exact List.getElem_mem _

lemma ms_set (i : Nat) (a d : α) (h : i < l.length) :
    (↑(l.set i a) : Multiset α) + {l.getD i d} = (↑l : Multiset α) + {a} := by
  induction l generalizing i with
  | nil => simp at h
  | cons x xs ih =>
    cases i with
    | zero =>
      simp only [List.set_cons_zero, List.getD_cons_zero]
      rw [← Multiset.cons_coe, ← Multiset.cons_coe, ← Multiset.singleton_add,
        ← Multiset.singleton_add]
      abel
    | succ j =>
      simp only [List.set_cons_succ, List.getD_cons_succ]
      rw [← Multiset.cons_coe, ← Multiset.cons_coe, Multiset.cons_add, Multiset.cons_add,
        ih j (by simpa using h)]

end GetDHelpers

/-! ### The binary-heap invariant and its preservation -/

/-- The min-heap property of the libstdc++ array heap under
HeapItem::operator>: every non-root slot's key is at least its
parent's key. -/
def HeapProp (l : List HeapItem) : Prop :=
  ∀ j, 0 < j → j < l.length → keyAt l ((j - 1) / 2) ≤ keyAt l j

/-- Heap property away from a hole: parent/child pairs not touching
the hole slot are ordered. -/
def HoleProp (l : List HeapItem) (hole : Nat) : Prop :=
  ∀ j, 0 < j → j < l.length → j ≠ hole → (j - 1) / 2 ≠ hole →
    keyAt l ((j - 1) / 2) ≤ keyAt l j

/-- Grandparent bound across the hole: children of the hole are at
least the hole's parent. -/
def HoleParentLe (l : List HeapItem) (hole : Nat) : Prop :=
  ∀ j, j < l.length → (j - 1) / 2 = hole → 0 < hole →
    keyAt l ((hole - 1) / 2) ≤ keyAt l j

/-- Value bound across the hole: children of the hole are at least
the carried value. -/
def HoleValueLe (l : List HeapItem) (hole : Nat) (v : HeapItem) : Prop :=
  ∀ j, j < l.length → (j - 1) / 2 = hole → 0 < j → v.ts ≤ keyAt l j

lemma heapProp_root_le (l : List HeapItem) (hp : HeapProp l) :
    ∀ j, j < l.length → keyAt l 0 ≤ keyAt l j := by
  intro j
  induction j using Nat.strong_induction_on with
  | _ j ih =>
    intro hj
    cases Nat.eq_zero_or_pos j with
    | inl h0 => subst h0; exact Nat.le_refl _
    | inr hpos =>
      have hparent : (j - 1) / 2 < j := by omega
      exact Nat.le_trans (ih _ hparent (by omega)) (hp j hpos hj)

lemma heapProp_root_le_mem (l : List HeapItem) (hp : HeapProp l) :
    ∀ x ∈ l, keyAt l 0 ≤ x.ts := by
  intro x hx
  obtain ⟨i, hi, rfl⟩ := List.mem_iff_getElem.mp hx
  have : keyAt l i = l[i].ts := by
    rw [keyAt, List.getD_eq_getElem _ _ hi]
  rw [← this]
  exact heapProp_root_le l hp i hi

lemma keyAt_set_self (l : List HeapItem) (i : Nat) (a : HeapItem) (h : i < l.length) :
    keyAt (l.set i a) i = a.ts := by
  rw [keyAt, getD_set_self _ _ _ _ h]

lemma keyAt_set_ne (l : List HeapItem) (i j : Nat) (a : HeapItem) (h : i ≠ j) :
    keyAt (l.set i a) j = keyAt l j := by
  rw [keyAt, getD_set_ne _ _ _ _ _ h, keyAt]

lemma pushHeapLoop_heapProp (l : List HeapItem) (hole : Nat) (v : HeapItem)
    (hlen : hole < l.length) (h1 : HoleProp l hole) (h2 : HoleParentLe l hole)
    (h3 : HoleValueLe l hole v) : HeapProp (pushHeapLoop l hole v) := by
  have H : ∀ (n : Nat) (l : List HeapItem) (hole : Nat) (v : HeapItem), hole ≤ n →
      hole < l.length → HoleProp l hole → HoleParentLe l hole → HoleValueLe l hole v →
      HeapProp (pushHeapLoop l hole v) := by
    intro n
    induction n with
    | zero =>
      intro l hole v hn hlen h1 h2 h3
      rw [pushHeapLoop, dif_neg (by omega)]
      have hole0 : hole = 0 := by omega
      subst hole0
      intro j hj0 hjlen
      rw [List.length_set] at hjlen
      rw [keyAt_set_ne l 0 j v (by omega)]
      by_cases hpj : (j - 1) / 2 = 0
      · rw [hpj, keyAt_set_self l 0 v hlen]
        exact h3 j hjlen hpj hj0
      · rw [keyAt_set_ne l 0 _ v (fun he => hpj he.symm)]
        exact h1 j hj0 hjlen (by omega) hpj
    | succ m ih =>
      intro l hole v hn hlen h1 h2 h3
      rw [pushHeapLoop]
      split
      · next h =>
        obtain ⟨hhole, hvlt⟩ := h
        set p := (hole - 1) / 2 with hp
        have hplt : p < hole := by omega
        have hplen : p < l.length := by omega
        set w := l.getD p default with hw
        have hwts : w.ts = keyAt l p := rfl
        refine ih (l.set hole w) p v (by omega) (by simpa using hplen) ?_ ?_ ?_
        · -- HoleProp (l.set hole w) p
          intro j hj0 hjlen hjne hpjne
          rw [List.length_set] at hjlen
          by_cases hjh : j = hole
          · exfalso
            apply hpjne
            rw [hjh]
          · rw [keyAt_set_ne l hole j w (Ne.symm hjh)]
            by_cases hpjh : (j - 1) / 2 = hole
            · rw [hpjh, keyAt_set_self l hole w hlen, hwts]
              exact h2 j hjlen hpjh hhole
            · rw [keyAt_set_ne l hole _ w (fun he => hpjh he.symm)]
              exact h1 j hj0 hjlen hjh hpjh
        · -- HoleParentLe (l.set hole w) p
          intro j hjlen hpj hp0
          rw [List.length_set] at hjlen
          have hglt : (p - 1) / 2 < p := by omega
          have hgne : (p - 1) / 2 ≠ hole := by omega
          have hstep1 : keyAt l ((p - 1) / 2) ≤ keyAt l p :=
            h1 p hp0 hplen (by omega) hgne
          rw [keyAt_set_ne l hole _ w (fun he => hgne he.symm)]
          by_cases hjh : j = hole
          · rw [hjh, keyAt_set_self l hole w hlen, hwts]
            exact hstep1
          · rw [keyAt_set_ne l hole j w (Ne.symm hjh)]
            have hj0 : 0 < j := by omega
            have hstep2 := h1 j hj0 hjlen hjh (by omega)
            rw [hpj] at hstep2
            exact Nat.le_trans hstep1 hstep2
        · -- HoleValueLe (l.set hole w) p v
          intro j hjlen hpj hj0
          rw [List.length_set] at hjlen
          by_cases hjh : j = hole
          · rw [hjh, keyAt_set_self l hole w hlen, hwts]
            exact Nat.le_of_lt hvlt
          · rw [keyAt_set_ne l hole j w (Ne.symm hjh)]
            have hstep2 := h1 j hj0 hjlen hjh (by omega)
            rw [hpj] at hstep2
            exact Nat.le_trans (Nat.le_of_lt hvlt) hstep2
      · next h =>
        intro j hj0 hjlen
        rw [List.length_set] at hjlen
        by_cases hjh : j = hole
        · subst hjh
          have hhole : 0 < j := hj0
          have hple : keyAt l ((j - 1) / 2) ≤ v.ts := by
            by_contra hlt
            exact h ⟨hhole, by omega⟩
          rw [keyAt_set_self l j v hlen,
            keyAt_set_ne l j ((j - 1) / 2) v (by omega)]
          exact hple
        · rw [keyAt_set_ne l hole j v (Ne.symm hjh)]
          by_cases hpjh : (j - 1) / 2 = hole
          · rw [hpjh, keyAt_set_self l hole v hlen]
            exact h3 j hjlen hpjh hj0
          · rw [keyAt_set_ne l hole _ v (fun he => hpjh he.symm)]
            exact h1 j hj0 hjlen hjh hpjh
  exact H hole l hole v (Nat.le_refl _) hlen h1 h2 h3

lemma keyAt_append (l : List HeapItem) (v : HeapItem) (i : Nat) (h : i < l.length) :
    keyAt (l ++ [v]) i = keyAt l i := by
  rw [keyAt, List.getD_append _ _ _ _ h, keyAt]

lemma pushHeap_heapProp (l : List HeapItem) (v : HeapItem) (hp : HeapProp l) :
    HeapProp (pushHeap l v) := by
  rw [pushHeap]
  apply pushHeapLoop_heapProp
  · simp
  · intro j hj0 hjlen hjne _
    simp only [List.length_append, List.length_cons, List.length_nil] at hjlen
    have hjl : j < l.length := by omega
    rw [keyAt_append l v j hjl, keyAt_append l v _ (by omega)]
    exact hp j hj0 hjl
  · intro j hjlen hpj hh
    simp only [List.length_append, List.length_cons, List.length_nil] at hjlen
    omega
  · intro j hjlen hpj hj0
    simp only [List.length_append, List.length_cons, List.length_nil] at hjlen
    omega

lemma adjustLoop_inv (len : Nat) :
    ∀ (l : List HeapItem) (sc : Nat), len = l.length → sc < len →
      HoleProp l sc → HoleParentLe l sc →
      HoleProp (adjustLoop l sc len).1 (adjustLoop l sc len).2
      ∧ HoleParentLe (adjustLoop l sc len).1 (adjustLoop l sc len).2
      ∧ (adjustLoop l sc len).2 < len
      ∧ (adjustLoop l sc len).1.length = l.length
      ∧ ¬ ((adjustLoop l sc len).2 < (len - 1) / 2) := by
  have H : ∀ (n : Nat) (l : List HeapItem) (sc : Nat), len - sc ≤ n → len = l.length →
      sc < len → HoleProp l sc → HoleParentLe l sc →
      HoleProp (adjustLoop l sc len).1 (adjustLoop l sc len).2
      ∧ HoleParentLe (adjustLoop l sc len).1 (adjustLoop l sc len).2
      ∧ (adjustLoop l sc len).2 < len
      ∧ (adjustLoop l sc len).1.length = l.length
      ∧ ¬ ((adjustLoop l sc len).2 < (len - 1) / 2) := by
    intro n
    induction n with
    | zero => intro l sc hn hlen hsc h1 h2; omega
    | succ m ih =>
      intro l sc hn hlen hsc h1 h2
      rw [adjustLoop]
      split
      · next h =>
        have hc2 : 2 * (sc + 1) ≤ len - 1 := by omega
        have key : ∀ c : Nat, 2 * sc + 1 ≤ c → c ≤ 2 * (sc + 1) →
            (∀ j, (j - 1) / 2 = sc → 0 < j → j ≠ c → j < len → keyAt l c ≤ keyAt l j) →
            HoleProp (l.set sc (l.getD c default)) c
            ∧ HoleParentLe (l.set sc (l.getD c default)) c := by
          intro c hcl hcu hsib
          have hclen : c < len := by omega
          have hscne : sc ≠ c := by omega
          have hpc : (c - 1) / 2 = sc := by omega
          constructor
          · intro j hj0 hjlen hjne hpjne
            rw [List.length_set] at hjlen
            by_cases hjsc : j = sc
            · subst hjsc
              have hsc0 : 0 < j := hj0
              have hgne : (j - 1) / 2 ≠ j := by omega
              rw [keyAt_set_self l j _ (by omega),
                keyAt_set_ne l j ((j - 1) / 2) _ (fun he => hgne he.symm)]
              exact h2 c (by omega) hpc hsc0
            · by_cases hpjsc : (j - 1) / 2 = sc
              · rw [keyAt_set_ne l sc j _ (Ne.symm hjsc), hpjsc,
                  keyAt_set_self l sc _ (by omega)]
                exact hsib j hpjsc hj0 hjne (by omega)
              · rw [keyAt_set_ne l sc j _ (Ne.symm hjsc),
                  keyAt_set_ne l sc _ _ (fun he => hpjsc he.symm)]
                exact h1 j hj0 hjlen hjsc hpjsc
          · intro j hjlen hpj h0c
            rw [List.length_set] at hjlen
            have hjgt : 2 * c + 1 ≤ j := by omega
            have hjne : j ≠ sc := by omega
            rw [hpc, keyAt_set_self l sc _ (by omega), keyAt_set_ne l sc j _ (Ne.symm hjne)]
            have hstep := h1 j (by omega) hjlen hjne (by omega)
            rw [hpj] at hstep
            exact hstep
        by_cases hcmp : keyAt l (2 * (sc + 1) - 1) < keyAt l (2 * (sc + 1))
        · simp only [if_pos hcmp]
          have hk := key (2 * (sc + 1) - 1) (by omega) (by omega) (fun j hpj hj0 hjne hjlen => by
            have hj2 : j = 2 * (sc + 1) := by omega
            rw [hj2]
            exact Nat.le_of_lt hcmp)
          have := ih (l.set sc (l.getD (2 * (sc + 1) - 1) default)) (2 * (sc + 1) - 1)
            (by omega) (by rw [List.length_set]; exact hlen) (by omega) hk.1 hk.2
          simpa [List.length_set] using this
        · simp only [if_neg hcmp]
          have hk := key (2 * (sc + 1)) (by omega) (by omega) (fun j hpj hj0 hjne hjlen => by
            have hj2 : j = 2 * (sc + 1) - 1 := by omega
            rw [hj2]
            omega)
          have := ih (l.set sc (l.getD (2 * (sc + 1)) default)) (2 * (sc + 1))
            (by omega) (by rw [List.length_set]; exact hlen) (by omega) hk.1 hk.2
          simpa [List.length_set] using this
      · next h =>
        exact ⟨h1, h2, hsc, rfl, h⟩
  intro l sc hlen hsc h1 h2
  exact H len l sc (by omega) hlen hsc h1 h2

lemma adjustHeap_heapProp (l : List HeapItem) (len : Nat) (v : HeapItem)
    (hlen : len = l.length) (hpos : 0 < len) (h1 : HoleProp l 0) :
    HeapProp (adjustHeap l len v) := by
  have h2 : HoleParentLe l 0 := fun j _ _ h0 => absurd h0 (by omega)
  obtain ⟨i1, i2, hsclt, hleneq, hexit⟩ := adjustLoop_inv len l 0 hlen hpos h1 h2
  rw [adjustHeap]
  split
  · next hcond =>
    obtain ⟨heven, hsc⟩ := hcond
    have hlen2 : 2 ≤ len := by omega
    have hchild : 2 * ((adjustLoop l 0 len).2 + 1) - 1 = len - 1 := by omega
    rw [hchild]
    apply pushHeapLoop_heapProp
    · rw [List.length_set]
      omega
    · -- hole property at len - 1 after moving the single child up
      intro j hj0 hjlen hjne hpjne
      rw [List.length_set] at hjlen
      by_cases hjz : j = (adjustLoop l 0 len).2
      · have hz0 : 0 < (adjustLoop l 0 len).2 := by omega
        have hgne : (j - 1) / 2 ≠ (adjustLoop l 0 len).2 := by omega
        rw [hjz, keyAt_set_self _ _ _ (by omega),
          keyAt_set_ne _ _ _ _ (by rw [hjz] at hgne; exact fun he => hgne he.symm)]
        exact i2 (len - 1) (by omega) (by omega) (by omega)
      · by_cases hpjz : (j - 1) / 2 = (adjustLoop l 0 len).2
        · exfalso
          omega
        · rw [keyAt_set_ne _ _ _ _ (Ne.symm hjz),
            keyAt_set_ne _ _ _ _ (fun he => hpjz he.symm)]
          exact i1 j hj0 (by omega) hjz hpjz
    · intro j hjlen hpj h0
      rw [List.length_set] at hjlen
      omega
    · intro j hjlen hpj hj0
      rw [List.length_set] at hjlen
      omega
  · next hcond =>
    apply pushHeapLoop_heapProp
    · omega
    · exact i1
    · intro j hjlen hpj h0
      exfalso
      omega
    · intro j hjlen hpj hj0
      exfalso
      omega

lemma popHeap_heapProp (l : List HeapItem) (hp : HeapProp l) : HeapProp (popHeap l).2 := by
  match l with
  | [] => intro j hj0 hjlen; simp [popHeap] at hjlen
  | [x] => intro j hj0 hjlen; simp [popHeap] at hjlen
  | x :: y :: ys =>
    rw [popHeap]
    apply adjustHeap_heapProp
    · simp
    · omega
    · intro j hj0 hjlen _ _
      rw [List.length_dropLast] at hjlen
      simp only [List.length_cons] at hjlen
      have hl : j < (x :: y :: ys).length - 1 := by simp; omega
      have hlp : (j - 1) / 2 < (x :: y :: ys).length - 1 := by simp; omega
      simp only [keyAt]
      rw [getD_dropLast _ _ _ hlp, getD_dropLast _ _ _ hl]
      exact hp j hj0 (by simp; omega)

/-! ### Multiset preservation of the heap operations -/

lemma ms_exchange {A B C : Multiset HeapItem} {u x v : HeapItem}
    (h1 : A + {u} = B + {v}) (h2 : B + {x} = C + {u}) : A + {x} = C + {v} := by
  have h : A + {x} + {u} = C + {v} + {u} := by
    calc A + {x} + {u} = A + {u} + {x} := by rw [add_right_comm]
    _ = B + {v} + {x} := by rw [h1]
    _ = B + {x} + {v} := by rw [add_right_comm]
    _ = C + {u} + {v} := by rw [h2]
    _ = C + {v} + {u} := by rw [add_right_comm]
  exact add_right_cancel h

lemma pushHeapLoop_ms (l : List HeapItem) (hole : Nat) (v : HeapItem)
    (hlen : hole < l.length) :
    (↑(pushHeapLoop l hole v) : Multiset HeapItem) + {l.getD hole default}
      = (↑l : Multiset HeapItem) + {v} := by
  have H : ∀ (n : Nat) (l : List HeapItem) (hole : Nat) (v : HeapItem), hole ≤ n →
      hole < l.length →
      (↑(pushHeapLoop l hole v) : Multiset HeapItem) + {l.getD hole default}
        = (↑l : Multiset HeapItem) + {v} := by
    intro n
    induction n with
    | zero =>
      intro l hole v hn hlen
      rw [pushHeapLoop, dif_neg (by omega)]
      exact ms_set l hole v default hlen
    | succ m ih =>
      intro l hole v hn hlen
      rw [pushHeapLoop]
      split
      · next h =>
        have hplt : (hole - 1) / 2 < hole := by omega
        have hIH := ih (l.set hole (l.getD ((hole - 1) / 2) default)) ((hole - 1) / 2) v
          (by omega) (by rw [List.length_set]; omega)
        rw [getD_set_ne l hole ((hole - 1) / 2) _ default (by omega)] at hIH
        have hms := ms_set l hole (l.getD ((hole - 1) / 2) default) default hlen
        exact ms_exchange hIH hms
      · next h =>
        exact ms_set l hole v default hlen
  exact H hole l hole v (Nat.le_refl _) hlen

lemma pushHeap_ms (l : List HeapItem) (v : HeapItem) :
    (↑(pushHeap l v) : Multiset HeapItem) = (↑l : Multiset HeapItem) + {v} := by
  have h := pushHeapLoop_ms (l ++ [v]) l.length v (by simp)
  rw [pushHeap]
  have hgd : (l ++ [v]).getD l.length default = v := by
    rw [List.getD_eq_getElem _ _ (by simp)]
    exact List.getElem_concat_length l v l.length rfl _
  rw [hgd] at h
  have hco : (↑(l ++ [v]) : Multiset HeapItem) = (↑l : Multiset HeapItem) + {v} := by
    rw [← Multiset.coe_add]
    rfl
  rw [hco] at h
  exact add_right_cancel h

lemma adjustLoop_snd_lt (len : Nat) :
    ∀ (l : List HeapItem) (sc : Nat), sc < len → (adjustLoop l sc len).2 < len := by
  have H : ∀ (n : Nat) (l : List HeapItem) (sc : Nat), len - sc ≤ n → sc < len →
      (adjustLoop l sc len).2 < len := by
    intro n
    induction n with
    | zero => intro l sc hn hsc; omega
    | succ m ih =>
      intro l sc hn hsc
      rw [adjustLoop]
      split
      · next h =>
        by_cases hcmp : keyAt l (2 * (sc + 1) - 1) < keyAt l (2 * (sc + 1))
        · simp only [if_pos hcmp]
          exact ih _ _ (by omega) (by omega)
        · simp only [if_neg hcmp]
          exact ih _ _ (by omega) (by omega)
      · next h => exact hsc
  intro l sc hsc
  exact H len l sc (by omega) hsc

lemma adjustLoop_ms (len : Nat) :
    ∀ (l : List HeapItem) (sc : Nat), len = l.length → sc < len → ∀ v2 : HeapItem,
      (↑((adjustLoop l sc len).1.set (adjustLoop l sc len).2 v2) : Multiset HeapItem)
        = (↑(l.set sc v2) : Multiset HeapItem) := by
  have H : ∀ (n : Nat) (l : List HeapItem) (sc : Nat), len - sc ≤ n → len = l.length →
      sc < len → ∀ v2 : HeapItem,
      (↑((adjustLoop l sc len).1.set (adjustLoop l sc len).2 v2) : Multiset HeapItem)
        = (↑(l.set sc v2) : Multiset HeapItem) := by
    intro n
    induction n with
    | zero => intro l sc hn hlen hsc; omega
    | succ m ih =>
      intro l sc hn hlen hsc v2
      rw [adjustLoop]
      split
      · next h =>
        have key : ∀ c : Nat, 2 * sc + 1 ≤ c → c ≤ 2 * (sc + 1) →
            (↑((adjustLoop (l.set sc (l.getD c default)) c len).1.set
                (adjustLoop (l.set sc (l.getD c default)) c len).2 v2) : Multiset HeapItem)
              = (↑(l.set sc v2) : Multiset HeapItem) := by
          intro c hcl hcu
          have hclen : c < len := by omega
          have hscc : sc ≠ c := by omega
          rw [ih (l.set sc (l.getD c default)) c (by omega)
            (by rw [List.length_set]; exact hlen) hclen v2]
          have h1 := ms_set (l.set sc (l.getD c default)) c v2 default
            (by rw [List.length_set]; omega)
          rw [getD_set_ne l sc c _ default hscc] at h1
          have h2 := ms_set l sc (l.getD c default) default (by omega)
          have h3 := ms_set l sc v2 default (by omega)
          have h4 := ms_exchange h1 h2
          exact add_right_cancel (h4.trans h3.symm)
        by_cases hcmp : keyAt l (2 * (sc + 1) - 1) < keyAt l (2 * (sc + 1))
        · simp only [if_pos hcmp]
          exact key (2 * (sc + 1) - 1) (by omega) (by omega)
        · simp only [if_neg hcmp]
          exact key (2 * (sc + 1)) (by omega) (by omega)
      · next h => rfl
  intro l sc hlen hsc
  exact H len l sc (by omega) hlen hsc

lemma adjustHeap_ms (l : List HeapItem) (len : Nat) (v : HeapItem)
    (hlen : len = l.length) (hpos : 0 < len) :
    (↑(adjustHeap l len v) : Multiset HeapItem) + {l.getD 0 default}
      = (↑l : Multiset HeapItem) + {v} := by
  have hsclt : (adjustLoop l 0 len).2 < len := adjustLoop_snd_lt len l 0 hpos
  have hlenz : (adjustLoop l 0 len).1.length = l.length := adjustLoop_length l 0 len
  rw [adjustHeap]
  split
  · next hcond =>
    obtain ⟨heven, hsc⟩ := hcond
    have hlen2 : 2 ≤ len := by omega
    have hchild : 2 * ((adjustLoop l 0 len).2 + 1) - 1 = len - 1 := by omega
    rw [hchild]
    have hzne : (adjustLoop l 0 len).2 ≠ len - 1 := by omega
    have hpml := pushHeapLoop_ms
      ((adjustLoop l 0 len).1.set (adjustLoop l 0 len).2
        ((adjustLoop l 0 len).1.getD (len - 1) default)) (len - 1) v
      (by rw [List.length_set]; omega)
    rw [getD_set_ne _ _ _ _ default hzne] at hpml
    rw [adjustLoop_ms len l 0 hlen hpos ((adjustLoop l 0 len).1.getD (len - 1) default)]
      at hpml
    have hms := ms_set l 0 ((adjustLoop l 0 len).1.getD (len - 1) default) default (by omega)
    exact ms_exchange hpml hms
  · next hcond =>
    have hpml := pushHeapLoop_ms (adjustLoop l 0 len).1 (adjustLoop l 0 len).2 v (by omega)
    have hself : (adjustLoop l 0 len).1.set (adjustLoop l 0 len).2
        ((adjustLoop l 0 len).1.getD (adjustLoop l 0 len).2 default)
        = (adjustLoop l 0 len).1 :=
      set_getD_self _ _ _ (by omega)
    have hz : (↑(adjustLoop l 0 len).1 : Multiset HeapItem)
        = ↑(l.set 0 ((adjustLoop l 0 len).1.getD (adjustLoop l 0 len).2 default)) := by
      have := adjustLoop_ms len l 0 hlen hpos
        ((adjustLoop l 0 len).1.getD (adjustLoop l 0 len).2 default)
      rw [hself] at this
      exact this
    rw [hz] at hpml
    have hms := ms_set l 0 ((adjustLoop l 0 len).1.getD (adjustLoop l 0 len).2 default)
      default (by omega)
    exact ms_exchange hpml hms

lemma popHeap_ms (l : List HeapItem) (h : l ≠ []) :
    (↑((popHeap l).2) : Multiset HeapItem) + {(popHeap l).1} = (↑l : Multiset HeapItem) := by
  match l with
  | [x] => simp [popHeap]
  | x :: y :: ys =>
    rw [popHeap]
    have hbl : ((x :: y :: ys).dropLast).length = ys.length + 1 := by simp
    have hadj := adjustHeap_ms ((x :: y :: ys).dropLast) (ys.length + 1)
      ((y :: ys).getLast (List.cons_ne_nil y ys)) hbl.symm (by omega)
    have hgd0 : ((x :: y :: ys).dropLast).getD 0 default = x := by
      rw [getD_dropLast _ _ _ (by simp)]
      rfl
    rw [hgd0] at hadj
    have hlast : ((x :: y :: ys).dropLast : Multiset HeapItem)
        + {(y :: ys).getLast (List.cons_ne_nil y ys)} = ↑(x :: y :: ys) := by
      have hl2 : (x :: y :: ys).dropLast ++ [(x :: y :: ys).getLast (by simp)]
          = x :: y :: ys := List.dropLast_append_getLast _
      have hgl : (x :: y :: ys).getLast (by simp) = (y :: ys).getLast (List.cons_ne_nil y ys) :=
        List.getLast_cons _
      rw [hgl] at hl2
      calc ((x :: y :: ys).dropLast : Multiset HeapItem)
          + {(y :: ys).getLast (List.cons_ne_nil y ys)}
          = ↑((x :: y :: ys).dropLast ++ [(y :: ys).getLast (List.cons_ne_nil y ys)]) := by
            rw [← Multiset.coe_add]
            rfl
        _ = ↑(x :: y :: ys) := by rw [hl2]
    rw [← hlast, hadj]

lemma popHeap_fst (l : List HeapItem) (h : l ≠ []) :
    (popHeap l).1 = l.getD 0 default := by
  match l with
  | [x] => rfl
  | x :: y :: ys => rfl

lemma mem_pushHeap (a : HeapItem) (l : List HeapItem) (v : HeapItem) :
    a ∈ pushHeap l v ↔ a ∈ l ∨ a = v := by
  have hms := pushHeap_ms l v
  constructor
  · intro ha
    have : a ∈ (↑(pushHeap l v) : Multiset HeapItem) := Multiset.mem_coe.mpr ha
    rw [hms] at this
    rcases Multiset.mem_add.mp this with h1 | h1
    · exact Or.inl (Multiset.mem_coe.mp h1)
    · exact Or.inr (Multiset.mem_singleton.mp h1)
  · intro ha
    have : a ∈ (↑l : Multiset HeapItem) + {v} := by
      rcases ha with h1 | h1
      · exact Multiset.mem_add.mpr (Or.inl (Multiset.mem_coe.mpr h1))
      · exact Multiset.mem_add.mpr (Or.inr (Multiset.mem_singleton.mpr h1))
    rw [← hms] at this
    exact Multiset.mem_coe.mp this

lemma mem_popHeap (a : HeapItem) (l : List HeapItem) (h : l ≠ []) :
    a ∈ (popHeap l).2 → a ∈ l := by
  intro ha
  have hms := popHeap_ms l h
  have : a ∈ (↑((popHeap l).2) : Multiset HeapItem) + {(popHeap l).1} :=
    Multiset.mem_add.mpr (Or.inl (Multiset.mem_coe.mpr ha))
  rw [hms] at this
  exact Multiset.mem_coe.mp this

lemma mem_popHeap_of_mem (a : HeapItem) (l : List HeapItem) (h : l ≠ [])
    (ha : a ∈ l) : a ∈ (popHeap l).2 ∨ a = (popHeap l).1 := by
  have hms := popHeap_ms l h
  have : a ∈ (↑((popHeap l).2) : Multiset HeapItem) + {(popHeap l).1} := by
    rw [hms]
    exact Multiset.mem_coe.mpr ha
  rcases Multiset.mem_add.mp this with h1 | h1
  · exact Or.inl (Multiset.mem_coe.mp h1)
  · exact Or.inr (Multiset.mem_singleton.mp h1)

lemma popHeap_fst_mem (l : List HeapItem) (h : l ≠ []) : (popHeap l).1 ∈ l := by
  rw [popHeap_fst l h]
  exact getD_mem l 0 default (List.length_pos.mpr h)

/-! ### The merged stream: permutation and timestamp order -/

/-- The emitted pair of a heap item: the source feed id and the record. -/
def itemOut (it : HeapItem) : Nat × MRec := (it.feed, it.record)

/-- The multiset of (feed, record) pairs still held in the streams,
feed ids read off the fixed per-index feed list. -/
def streamsOutFrom (fds : List Nat) (k : Nat) : List (List MRec) → Multiset (Nat × MRec)
  | [] => 0
  | s :: ss => (↑(s.map (fun r => (fds.getD k 0, r))) : Multiset (Nat × MRec))
      + streamsOutFrom fds (k + 1) ss

lemma streamsOutFrom_set (fds : List Nat) :
    ∀ (streams : List (List MRec)) (k i : Nat) (r : MRec) (tl : List MRec),
      streams.getD i [] = r :: tl →
      streamsOutFrom fds k (streams.set i tl) + {(fds.getD (k + i) 0, r)}
        = streamsOutFrom fds k streams := by
  intro streams
  induction streams with
  | nil => intro k i r tl h; simp at h
  | cons s ss ih =>
    intro k i r tl h
    cases i with
    | zero =>
      simp only [List.getD_cons_zero] at h
      subst h
      simp only [List.set_cons_zero, streamsOutFrom, Nat.add_zero, List.map_cons]
      rw [← Multiset.cons_coe, ← Multiset.singleton_add]
      abel
    | succ j =>
      simp only [List.getD_cons_succ] at h
      simp only [List.set_cons_succ, streamsOutFrom]
      have := ih (k + 1) j r tl h
      rw [add_assoc, show k + (j + 1) = k + 1 + j by omega, this]

lemma streamsOutFrom_eq_zero (fds : List Nat) :
    ∀ (streams : List (List MRec)) (k : Nat), (∀ s ∈ streams, s = []) →
      streamsOutFrom fds k streams = 0 := by
  intro streams
  induction streams with
  | nil => intro k _; rfl
  | cons s ss ih =>
    intro k h
    rw [streamsOutFrom, h s (List.mem_cons_self s ss), ih (k + 1)
      (fun x hx => h x (List.mem_cons_of_mem s hx))]
    simp

lemma mergeLoop_ms (fds : List Nat) (streams : List (List MRec)) (heap : List HeapItem)
    (hfeed : ∀ it ∈ heap, it.feed = fds.getD it.idx 0)
    (hcover : ∀ i, i < streams.length → streams.getD i [] ≠ [] → ∃ it ∈ heap, it.idx = i) :
    (↑(mergeLoop streams heap) : Multiset (Nat × MRec))
      = Multiset.map itemOut (↑heap : Multiset HeapItem) + streamsOutFrom fds 0 streams := by
  have H : ∀ (n : Nat) (streams : List (List MRec)) (heap : List HeapItem),
      heap.length + (streams.map List.length).sum ≤ n →
      (∀ it ∈ heap, it.feed = fds.getD it.idx 0) →
      (∀ i, i < streams.length → streams.getD i [] ≠ [] → ∃ it ∈ heap, it.idx = i) →
      (↑(mergeLoop streams heap) : Multiset (Nat × MRec))
        = Multiset.map itemOut (↑heap : Multiset HeapItem)
          + streamsOutFrom fds 0 streams := by
    intro n
    induction n with
    | zero =>
      intro streams heap hle hfeed hcover
      have hheap : heap = [] := by
        cases heap with
        | nil => rfl
        | cons a l => simp at hle
      subst hheap
      have hempty : ∀ s ∈ streams, s = [] := by
        intro s hs
        obtain ⟨i, hi, rfl⟩ := List.mem_iff_getElem.mp hs
        by_contra hne
        obtain ⟨it, hit, _⟩ := hcover i hi (by rw [List.getD_eq_getElem _ _ hi]; exact hne)
        simp at hit
      rw [mergeLoop, dif_pos (by simp), streamsOutFrom_eq_zero fds streams 0 hempty]
      simp
    | succ m ih =>
      intro streams heap hle hfeed hcover
      rw [mergeLoop]
      by_cases hne : heap.isEmpty
      · rw [dif_pos hne]
        have hheap : heap = [] := by simpa [List.isEmpty_iff] using hne
        subst hheap
        have hempty : ∀ s ∈ streams, s = [] := by
          intro s hs
          obtain ⟨i, hi, rfl⟩ := List.mem_iff_getElem.mp hs
          by_contra hne2
          obtain ⟨it, hit, _⟩ := hcover i hi
            (by rw [List.getD_eq_getElem _ _ hi]; exact hne2)
          simp at hit
        rw [streamsOutFrom_eq_zero fds streams 0 hempty]
        simp
      · rw [dif_neg hne]
        have hne' : heap ≠ [] := by simpa [List.isEmpty_iff] using hne
        have hlen := popHeap_length heap hne'
        have hpos : 0 < heap.length := List.length_pos.mpr hne'
        have hpms := popHeap_ms heap hne'
        have hmapms : Multiset.map itemOut (↑((popHeap heap).2) : Multiset HeapItem)
            + {((popHeap heap).1.feed, (popHeap heap).1.record)}
            = Multiset.map itemOut (↑heap : Multiset HeapItem) := by
          rw [← hpms]
          simp [itemOut]
        split
        · next hs =>
          have hrec := ih streams (popHeap heap).2 (by omega)
            (fun it hit => hfeed it (mem_popHeap it heap hne' hit))
            (by
              intro i hi hne2
              obtain ⟨it, hit, hidx⟩ := hcover i hi hne2
              have hitne : it ≠ (popHeap heap).1 := by
                intro he
                rw [← he, hidx] at hs
                exact hne2 hs
              rcases mem_popHeap_of_mem it heap hne' hit with h1 | h1
              · exact ⟨it, h1, hidx⟩
              · exact absurd h1 hitne)
          calc (↑(((popHeap heap).1.feed, (popHeap heap).1.record)
                :: mergeLoop streams (popHeap heap).2) : Multiset (Nat × MRec))
              = {((popHeap heap).1.feed, (popHeap heap).1.record)}
                + ↑(mergeLoop streams (popHeap heap).2) := by
                rw [← Multiset.cons_coe, ← Multiset.singleton_add]
          _ = {((popHeap heap).1.feed, (popHeap heap).1.record)}
                + (Multiset.map itemOut (↑((popHeap heap).2) : Multiset HeapItem)
                  + streamsOutFrom fds 0 streams) := by rw [hrec]
          _ = (Multiset.map itemOut (↑((popHeap heap).2) : Multiset HeapItem)
                + {((popHeap heap).1.feed, (popHeap heap).1.record)})
                + streamsOutFrom fds 0 streams := by abel
          _ = Multiset.map itemOut (↑heap : Multiset HeapItem)
                + streamsOutFrom fds 0 streams := by rw [hmapms]
        · next r tl hs =>
          have hlt : (popHeap heap).1.idx < streams.length :=
            getD_ne_nil_lt streams _ (by rw [hs]; simp)
          have hsum := sum_map_length_set streams (popHeap heap).1.idx tl hlt
          rw [hs] at hsum
          have hfeedtop : (popHeap heap).1.feed = fds.getD (popHeap heap).1.idx 0 :=
            hfeed _ (popHeap_fst_mem heap hne')
          have hrec := ih (streams.set (popHeap heap).1.idx tl)
            (pushHeap (popHeap heap).2
              ⟨r.ts, r, (popHeap heap).1.idx, (popHeap heap).1.feed⟩)
            (by
              rw [pushHeap_length]
              simp only [List.length_cons] at hsum
              omega)
            (by
              intro it hit
              rcases (mem_pushHeap it _ _).mp hit with h1 | h1
              · exact hfeed it (mem_popHeap it heap hne' h1)
              · rw [h1]
                exact hfeedtop)
            (by
              intro i hi hne2
              rw [List.length_set] at hi
              by_cases hii : i = (popHeap heap).1.idx
              · refine ⟨⟨r.ts, r, (popHeap heap).1.idx, (popHeap heap).1.feed⟩,
                  (mem_pushHeap _ _ _).mpr (Or.inr rfl), hii.symm⟩
              · rw [getD_set_ne streams _ i tl [] (fun he => hii he.symm)] at hne2
                obtain ⟨it, hit, hidx⟩ := hcover i hi hne2
                have hitne : it ≠ (popHeap heap).1 := by
                  intro he
                  rw [he] at hidx
                  exact hii hidx.symm
                rcases mem_popHeap_of_mem it heap hne' hit with h1 | h1
                · exact ⟨it, (mem_pushHeap it _ _).mpr (Or.inl h1), hidx⟩
                · exact absurd h1 hitne)
          have hpushms : Multiset.map itemOut
              (↑(pushHeap (popHeap heap).2
                ⟨r.ts, r, (popHeap heap).1.idx, (popHeap heap).1.feed⟩) : Multiset HeapItem)
              = Multiset.map itemOut (↑((popHeap heap).2) : Multiset HeapItem)
                + {((popHeap heap).1.feed, r)} := by
            rw [pushHeap_ms]
            simp [itemOut]
          have hstr := streamsOutFrom_set fds streams 0 (popHeap heap).1.idx r tl hs
          rw [Nat.zero_add, ← hfeedtop] at hstr
          calc (↑(((popHeap heap).1.feed, (popHeap heap).1.record)
                :: mergeLoop (streams.set (popHeap heap).1.idx tl)
                  (pushHeap (popHeap heap).2
                    ⟨r.ts, r, (popHeap heap).1.idx, (popHeap heap).1.feed⟩))
              : Multiset (Nat × MRec))
              = {((popHeap heap).1.feed, (popHeap heap).1.record)}
                + ↑(mergeLoop (streams.set (popHeap heap).1.idx tl)
                  (pushHeap (popHeap heap).2
                    ⟨r.ts, r, (popHeap heap).1.idx, (popHeap heap).1.feed⟩)) := by
                rw [← Multiset.cons_coe, ← Multiset.singleton_add]
          _ = {((popHeap heap).1.feed, (popHeap heap).1.record)}
                + ((Multiset.map itemOut (↑((popHeap heap).2) : Multiset HeapItem)
                    + {((popHeap heap).1.feed, r)})
                  + streamsOutFrom fds 0 (streams.set (popHeap heap).1.idx tl)) := by
                rw [hrec, hpushms]
          _ = (Multiset.map itemOut (↑((popHeap heap).2) : Multiset HeapItem)
                + {((popHeap heap).1.feed, (popHeap heap).1.record)})
                + (streamsOutFrom fds 0 (streams.set (popHeap heap).1.idx tl)
                  + {((popHeap heap).1.feed, r)}) := by abel
          _ = Multiset.map itemOut (↑heap : Multiset HeapItem)
                + streamsOutFrom fds 0 streams := by rw [hmapms, hstr]
  exact H (heap.length + (streams.map List.length).sum) streams heap (Nat.le_refl _)
    hfeed hcover

lemma mergeLoop_lb (c : Nat) :
    ∀ (n : Nat) (streams : List (List MRec)) (heap : List HeapItem),
      heap.length + (streams.map List.length).sum ≤ n →
      (∀ it ∈ heap, c ≤ it.ts) →
      (∀ s ∈ streams, ∀ r ∈ s, c ≤ r.ts) →
      (∀ it ∈ heap, it.record.ts = it.ts) →
      ∀ y ∈ mergeLoop streams heap, c ≤ y.2.ts := by
  intro n
  induction n with
  | zero =>
    intro streams heap hle hheap hstr htsok y hy
    have hheap0 : heap = [] := by
      cases heap with
      | nil => rfl
      | cons a l => simp at hle
    rw [hheap0, mergeLoop, dif_pos (by simp)] at hy
    simp at hy
  | succ m ih =>
    intro streams heap hle hheap hstr htsok y hy
    rw [mergeLoop] at hy
    by_cases hne : heap.isEmpty
    · rw [dif_pos hne] at hy
      simp at hy
    · rw [dif_neg hne] at hy
      have hne' : heap ≠ [] := by simpa [List.isEmpty_iff] using hne
      have hlen := popHeap_length heap hne'
      have hpos : 0 < heap.length := List.length_pos.mpr hne'
      have htop := popHeap_fst_mem heap hne'
      have htophd : c ≤ (popHeap heap).1.record.ts := by
        rw [htsok _ htop]
        exact hheap _ htop
      split at hy
      · next hs =>
        rcases List.mem_cons.mp hy with h1 | h1
        · rw [h1]
          exact htophd
        · exact ih streams (popHeap heap).2 (by omega)
            (fun it hit => hheap it (mem_popHeap it heap hne' hit)) hstr
            (fun it hit => htsok it (mem_popHeap it heap hne' hit)) y h1
      · next r tl hs =>
        have hlt : (popHeap heap).1.idx < streams.length :=
          getD_ne_nil_lt streams _ (by rw [hs]; simp)
        have hsmem : streams.getD (popHeap heap).1.idx [] ∈ streams :=
          getD_mem streams _ [] hlt
        have hrts : c ≤ r.ts := hstr _ hsmem r (by rw [hs]; simp)
        rcases List.mem_cons.mp hy with h1 | h1
        · rw [h1]
          exact htophd
        · have hsum := sum_map_length_set streams (popHeap heap).1.idx tl hlt
          rw [hs] at hsum
          refine ih (streams.set (popHeap heap).1.idx tl)
            (pushHeap (popHeap heap).2 ⟨r.ts, r, (popHeap heap).1.idx, (popHeap heap).1.feed⟩)
            ?_ ?_ ?_ ?_ y h1
          · rw [pushHeap_length]
            simp only [List.length_cons] at hsum
            omega
          · intro it hit
            rcases (mem_pushHeap it _ _).mp hit with h2 | h2
            · exact hheap it (mem_popHeap it heap hne' h2)
            · rw [h2]
              exact hrts
          · intro s hsm r2 hr2
            rcases List.mem_or_eq_of_mem_set hsm with h2 | h2
            · exact hstr s h2 r2 hr2
            · subst h2
              exact hstr _ hsmem r2 (by rw [hs]; exact List.mem_cons_of_mem r hr2)
          · intro it hit
            rcases (mem_pushHeap it _ _).mp hit with h2 | h2
            · exact htsok it (mem_popHeap it heap hne' h2)
            · rw [h2]

lemma mergeLoop_sorted :
    ∀ (n : Nat) (streams : List (List MRec)) (heap : List HeapItem),
      heap.length + (streams.map List.length).sum ≤ n →
      HeapProp heap →
      (∀ it ∈ heap, ∀ r ∈ streams.getD it.idx [], it.ts ≤ r.ts) →
      (∀ s ∈ streams, List.Pairwise (fun a b : MRec => a.ts ≤ b.ts) s) →
      (∀ i, i < streams.length → streams.getD i [] ≠ [] → ∃ it ∈ heap, it.idx = i) →
      (∀ it ∈ heap, it.record.ts = it.ts) →
      List.Pairwise (fun a b : Nat × MRec => a.2.ts ≤ b.2.ts) (mergeLoop streams heap) := by
  intro n
  induction n with
  | zero =>
    intro streams heap hle hhp hbound hsort hcover htsok
    have hheap0 : heap = [] := by
      cases heap with
      | nil => rfl
      | cons a l => simp at hle
    rw [hheap0, mergeLoop, dif_pos (by simp)]
    exact List.Pairwise.nil
  | succ m ih =>
    intro streams heap hle hhp hbound hsort hcover htsok
    rw [mergeLoop]
    by_cases hne : heap.isEmpty
    · rw [dif_pos hne]
      exact List.Pairwise.nil
    · rw [dif_neg hne]
      have hne' : heap ≠ [] := by simpa [List.isEmpty_iff] using hne
      have hlen := popHeap_length heap hne'
      have hpos : 0 < heap.length := List.length_pos.mpr hne'
      have htopmem := popHeap_fst_mem heap hne'
      have htopts : (popHeap heap).1.ts = keyAt heap 0 := by
        rw [popHeap_fst heap hne', keyAt]
      have hroot : ∀ x ∈ heap, (popHeap heap).1.ts ≤ x.ts := by
        intro x hx
        rw [htopts]
        exact heapProp_root_le_mem heap hhp x hx
      have hallstreams : ∀ s ∈ streams, ∀ r2 ∈ s, (popHeap heap).1.ts ≤ r2.ts := by
        intro s hsm r2 hr2
        obtain ⟨i, hi, rfl⟩ := List.mem_iff_getElem.mp hsm
        have hgd : streams.getD i [] = streams[i] := List.getD_eq_getElem streams [] hi
        obtain ⟨it, hitmem, hidx⟩ := hcover i hi
          (by rw [hgd]; exact List.ne_nil_of_mem hr2)
        have hb := hbound it hitmem r2 (by rw [hidx, hgd]; exact hr2)
        exact Nat.le_trans (hroot it hitmem) hb
      have hrestheap := popHeap_heapProp heap hhp
      have hresttsok : ∀ it ∈ (popHeap heap).2, it.record.ts = it.ts :=
        fun it hit => htsok it (mem_popHeap it heap hne' hit)
      have hrestroot : ∀ it ∈ (popHeap heap).2, (popHeap heap).1.ts ≤ it.ts :=
        fun it hit => hroot it (mem_popHeap it heap hne' hit)
      split
      · next hs =>
        refine List.pairwise_cons.mpr ⟨?_, ?_⟩
        · intro y hy
          have := mergeLoop_lb (popHeap heap).1.ts m streams (popHeap heap).2
            (by omega) hrestroot hallstreams hresttsok y hy
          rw [← htsok _ htopmem] at this
          simpa using this
        · refine ih streams (popHeap heap).2 (by omega) hrestheap ?_ hsort ?_ hresttsok
          · exact fun it hit => hbound it (mem_popHeap it heap hne' hit)
          · intro i hi hne2
            obtain ⟨it, hit, hidx⟩ := hcover i hi hne2
            have hitne : it ≠ (popHeap heap).1 := by
              intro he
              rw [← he, hidx] at hs
              exact hne2 hs
            rcases mem_popHeap_of_mem it heap hne' hit with h1 | h1
            · exact ⟨it, h1, hidx⟩
            · exact absurd h1 hitne
      · next r tl hs =>
        have hlt : (popHeap heap).1.idx < streams.length :=
          getD_ne_nil_lt streams _ (by rw [hs]; simp)
        have hsmem : streams.getD (popHeap heap).1.idx [] ∈ streams :=
          getD_mem streams _ [] hlt
        have hsum := sum_map_length_set streams (popHeap heap).1.idx tl hlt
        rw [hs] at hsum
        simp only [List.length_cons] at hsum
        have hms : (pushHeap (popHeap heap).2
            ⟨r.ts, r, (popHeap heap).1.idx, (popHeap heap).1.feed⟩).length
            + ((streams.set (popHeap heap).1.idx tl).map List.length).sum ≤ m := by
          rw [pushHeap_length]
          omega
        have hrtltop : (popHeap heap).1.ts ≤ r.ts :=
          hbound _ htopmem r (by rw [hs]; simp)
        have hsorttl := hsort _ hsmem
        rw [hs] at hsorttl
        have hrtl : ∀ x ∈ tl, r.ts ≤ x.ts := (List.pairwise_cons.mp hsorttl).1
        have hsorttl2 : List.Pairwise (fun a b : MRec => a.ts ≤ b.ts) tl :=
          (List.pairwise_cons.mp hsorttl).2
        have hheap2 : ∀ it ∈ pushHeap (popHeap heap).2
            ⟨r.ts, r, (popHeap heap).1.idx, (popHeap heap).1.feed⟩,
            (popHeap heap).1.ts ≤ it.ts := by
          intro it hit
          rcases (mem_pushHeap it _ _).mp hit with h2 | h2
          · exact hrestroot it h2
          · rw [h2]
            exact hrtltop
        have hstr2 : ∀ s ∈ streams.set (popHeap heap).1.idx tl, ∀ r2 ∈ s,
            (popHeap heap).1.ts ≤ r2.ts := by
          intro s hsm r2 hr2
          rcases List.mem_or_eq_of_mem_set hsm with h2 | h2
          · exact hallstreams s h2 r2 hr2
          · subst h2
            exact hallstreams _ hsmem r2 (by rw [hs]; exact List.mem_cons_of_mem r hr2)
        have htsok2 : ∀ it ∈ pushHeap (popHeap heap).2
            ⟨r.ts, r, (popHeap heap).1.idx, (popHeap heap).1.feed⟩,
            it.record.ts = it.ts := by
          intro it hit
          rcases (mem_pushHeap it _ _).mp hit with h2 | h2
          · exact hresttsok it h2
          · rw [h2]
        refine List.pairwise_cons.mpr ⟨?_, ?_⟩
        · intro y hy
          have := mergeLoop_lb (popHeap heap).1.ts m _ _ hms hheap2 hstr2 htsok2 y hy
          rw [← htsok _ htopmem] at this
          simpa using this
        · refine ih _ _ hms (pushHeap_heapProp _ _ hrestheap) ?_ ?_ ?_ htsok2
          · -- bound maintenance
            intro it hit r2 hr2
            rcases (mem_pushHeap it _ _).mp hit with h2 | h2
            · by_cases hidx : it.idx = (popHeap heap).1.idx
              · rw [hidx, getD_set_self streams _ tl [] hlt] at hr2
                refine hbound it (mem_popHeap it heap hne' h2) r2 ?_
                rw [hidx, hs]
                exact List.mem_cons_of_mem r hr2
              · rw [getD_set_ne streams _ it.idx tl [] (fun he => hidx he.symm)] at hr2
                exact hbound it (mem_popHeap it heap hne' h2) r2 hr2
            · subst h2
              simp only at hr2 ⊢
              rw [getD_set_self streams _ tl [] hlt] at hr2
              exact hrtl r2 hr2
          · -- stream sortedness maintenance
            intro s hsm
            rcases List.mem_or_eq_of_mem_set hsm with h2 | h2
            · exact hsort s h2
            · rw [h2]
              exact hsorttl2
          · -- cover maintenance
            intro i hi hne2
            rw [List.length_set] at hi
            by_cases hii : i = (popHeap heap).1.idx
            · exact ⟨⟨r.ts, r, (popHeap heap).1.idx, (popHeap heap).1.feed⟩,
                (mem_pushHeap _ _ _).mpr (Or.inr rfl), hii.symm⟩
            · rw [getD_set_ne streams _ i tl [] (fun he => hii he.symm)] at hne2
              obtain ⟨it, hit, hidx⟩ := hcover i hi hne2
              have hitne : it ≠ (popHeap heap).1 := by
                intro he
                rw [he] at hidx
                exact hii hidx.symm
              rcases mem_popHeap_of_mem it heap hne' hit with h1 | h1
              · exact ⟨it, (mem_pushHeap it _ _).mpr (Or.inl h1), hidx⟩
              · exact absurd h1 hitne

/-! ### The setup loop of the merger -/

/-- The items the setup loop pushes, as a flat list: the first record
of every non-empty input, with its stream index and header feed id. -/
def headItemsFrom (k : Nat) : List MInput → List HeapItem
  | [] => []
  | inp :: rest =>
    (match inp.recs with
     | [] => []
     | r :: _ => [⟨r.ts, r, k, inp.header.feed_id⟩]) ++ headItemsFrom (k + 1) rest

lemma initHeapFrom_ms :
    ∀ (inputs : List MInput) (k : Nat) (h : List HeapItem),
      (↑(initHeapFrom k h inputs) : Multiset HeapItem)
        = (↑h : Multiset HeapItem) + ↑(headItemsFrom k inputs) := by
  intro inputs
  induction inputs with
  | nil => intro k h; simp [initHeapFrom, headItemsFrom]
  | cons inp rest ih =>
    intro k h
    obtain ⟨hdr, recs⟩ := inp
    rw [initHeapFrom, headItemsFrom]
    cases recs with
    | nil =>
      rw [ih]
      simp
    | cons r tl =>
      rw [ih, pushHeap_ms]
      simp only [List.singleton_append]
      rw [← Multiset.cons_coe, ← Multiset.singleton_add]
      abel

lemma initHeapFrom_heapProp :
    ∀ (inputs : List MInput) (k : Nat) (h : List HeapItem), HeapProp h →
      HeapProp (initHeapFrom k h inputs) := by
  intro inputs
  induction inputs with
  | nil => intro k h hp; exact hp
  | cons inp rest ih =>
    intro k h hp
    obtain ⟨hdr, recs⟩ := inp
    rw [initHeapFrom]
    cases recs with
    | nil => exact ih _ _ hp
    | cons r tl => exact ih _ _ (pushHeap_heapProp _ _ hp)

lemma initHeap_heapProp (inputs : List MInput) : HeapProp (initHeap inputs) := by
  rw [initHeap]
  apply initHeapFrom_heapProp
  intro j hj0 hjlen
  simp at hjlen

lemma headItemsFrom_mem :
    ∀ (inputs : List MInput) (k : Nat) (it : HeapItem), it ∈ headItemsFrom k inputs →
      ∃ j, j < inputs.length ∧ it.idx = k + j
        ∧ ∃ tl, (inputs.getD j default).recs = it.record :: tl
        ∧ it.ts = it.record.ts ∧ it.feed = (inputs.getD j default).header.feed_id := by
  intro inputs
  induction inputs with
  | nil => intro k it h; simp [headItemsFrom] at h
  | cons inp rest ih =>
    intro k it h
    rw [headItemsFrom] at h
    rcases List.mem_append.mp h with h1 | h1
    · match hr : inp.recs with
      | [] => rw [hr] at h1; simp at h1
      | r :: tl =>
        rw [hr] at h1
        simp only [List.mem_singleton] at h1
        subst h1
        exact ⟨0, by simp, by simp, tl, by simpa using hr, rfl, rfl⟩
    · obtain ⟨j, hj, hidx, tl, hrecs, hts, hfeed⟩ := ih (k + 1) it h1
      exact ⟨j + 1, by simpa using Nat.succ_lt_succ hj, by omega,
        tl, by simpa using hrecs, hts, by simpa using hfeed⟩

lemma headItemsFrom_cover :
    ∀ (inputs : List MInput) (k j : Nat), j < inputs.length →
      (inputs.getD j default).recs ≠ [] →
      ∃ it ∈ headItemsFrom k inputs, it.idx = k + j := by
  intro inputs
  induction inputs with
  | nil => intro k j hj; simp at hj
  | cons inp rest ih =>
    intro k j hj hne
    cases j with
    | zero =>
      simp only [List.getD_cons_zero] at hne
      rw [headItemsFrom]
      match hr : inp.recs with
      | [] => exact absurd hr hne
      | r :: tl =>
        refine ⟨⟨r.ts, r, k, inp.header.feed_id⟩, ?_, by simp⟩
        simp
    | succ i =>
      simp only [List.getD_cons_succ] at hne
      obtain ⟨it, hit, hidx⟩ := ih (k + 1) i (by simpa using hj) hne
      refine ⟨it, ?_, by omega⟩
      rw [headItemsFrom]
      exact List.mem_append.mpr (Or.inr hit)

lemma mem_initHeap (inputs : List MInput) (it : HeapItem) :
    it ∈ initHeap inputs ↔ it ∈ headItemsFrom 0 inputs := by
  have h := initHeapFrom_ms inputs 0 []
  rw [initHeap]
  constructor
  · intro hm
    have : it ∈ (↑(initHeapFrom 0 [] inputs) : Multiset HeapItem) := Multiset.mem_coe.mpr hm
    rw [h] at this
    simpa using this
  · intro hm
    have : it ∈ (↑([] : List HeapItem) : Multiset HeapItem) + ↑(headItemsFrom 0 inputs) := by
      simpa using hm
    rw [← h] at this
    exact Multiset.mem_coe.mp this

lemma getD_map {α β : Type} (f : α → β) (l : List α) (j : Nat) (d : β) (d2 : α)
    (h : j < l.length) : (l.map f).getD j d = f (l.getD j d2) := by
  rw [List.getD_eq_getElem _ _ (by simpa using h), List.getD_eq_getElem _ _ h]
  simp

lemma pairwise_tail {α : Type} {R : α → α → Prop} :
    ∀ {l : List α}, List.Pairwise R l → List.Pairwise R l.tail
  | [], _ => List.Pairwise.nil
  | _ :: _, h => (List.pairwise_cons.mp h).2

/-- The tagged concatenation of the input streams: every record paired
with its input's header feed id, in input order. -/
def mergedConcat (inputs : List MInput) : List (Nat × MRec) :=
  inputs.flatMap (fun inp => inp.recs.map (fun r => (inp.header.feed_id, r)))

lemma init_account (fds : List Nat) :
    ∀ (inputs : List MInput) (k : Nat),
      (∀ j, j < inputs.length → fds.getD (k + j) 0 = (inputs.getD j default).header.feed_id) →
      Multiset.map itemOut (↑(headItemsFrom k inputs) : Multiset HeapItem)
        + streamsOutFrom fds k (inputs.map (fun inp => inp.recs.tail))
      = (↑(mergedConcat inputs) : Multiset (Nat × MRec)) := by
  intro inputs
  induction inputs with
  | nil => intro k _; simp [headItemsFrom, streamsOutFrom, mergedConcat]
  | cons inp rest ih =>
    intro k halign
    have hk0 : fds.getD k 0 = inp.header.feed_id := by
      have := halign 0 (by simp)
      simpa using this
    have halign2 : ∀ j, j < rest.length →
        fds.getD (k + 1 + j) 0 = (rest.getD j default).header.feed_id := by
      intro j hj
      have := halign (j + 1) (by simpa using Nat.succ_lt_succ hj)
      rw [show k + (j + 1) = k + 1 + j by omega] at this
      simpa using this
    rw [headItemsFrom, List.map_cons, streamsOutFrom, hk0]
    have hrest := ih (k + 1) halign2
    have hconcat : mergedConcat (inp :: rest)
        = inp.recs.map (fun r => (inp.header.feed_id, r)) ++ mergedConcat rest := by
      rw [mergedConcat, List.flatMap_cons, mergedConcat]
    rw [hconcat]
    match hr : inp.recs with
    | [] =>
      simp only [List.nil_append, List.tail_nil, List.map_nil]
      rw [← hrest]
      simp
    | r :: tl =>
      simp only [List.singleton_append, List.tail_cons, List.map_cons, List.cons_append]
      rw [← Multiset.cons_coe, Multiset.map_cons, ← Multiset.cons_coe, ← Multiset.coe_add]
      have hio : itemOut ⟨r.ts, r, k, inp.header.feed_id⟩ = (inp.header.feed_id, r) := rfl
      rw [hio, ← Multiset.singleton_add, ← Multiset.singleton_add, Multiset.coe_nil,
        Multiset.map_add, Multiset.map_zero, zero_add, ← Multiset.coe_add, ← hrest]
      abel

/-! ### Invariants of the initial merge state -/

lemma initHeap_feedOk (inputs : List MInput) :
    ∀ it ∈ initHeap inputs,
      it.feed = (inputs.map (fun inp => inp.header.feed_id)).getD it.idx 0 := by
  intro it hm
  obtain ⟨j, hj, hidx, tl, hrecs, hts, hfeed⟩ :=
    headItemsFrom_mem inputs 0 it ((mem_initHeap inputs it).mp hm)
  have hidx2 : it.idx = j := by omega
  rw [hfeed, hidx2, getD_map (fun inp => inp.header.feed_id) inputs j 0 default hj]

lemma initStreams_getD (inputs : List MInput) (j : Nat) (hj : j < inputs.length) :
    (initStreams inputs).getD j [] = (inputs.getD j default).recs.tail := by
  rw [initStreams]
  exact getD_map _ inputs j [] default hj

lemma initHeap_cover (inputs : List MInput) :
    ∀ i, i < (initStreams inputs).length → (initStreams inputs).getD i [] ≠ [] →
      ∃ it ∈ initHeap inputs, it.idx = i := by
  intro i hi hne
  have hi2 : i < inputs.length := by simpa [initStreams] using hi
  have hrec : (inputs.getD i default).recs ≠ [] := by
    intro h0
    apply hne
    rw [initStreams_getD inputs i hi2, h0]
    rfl
  obtain ⟨it, hit, hidx⟩ := headItemsFrom_cover inputs 0 i hi2 hrec
  exact ⟨it, (mem_initHeap inputs it).mpr hit, by omega⟩

lemma initHeap_tsok (inputs : List MInput) :
    ∀ it ∈ initHeap inputs, it.record.ts = it.ts := by
  intro it hm
  obtain ⟨j, hj, hidx, tl, hrecs, hts, hfeed⟩ :=
    headItemsFrom_mem inputs 0 it ((mem_initHeap inputs it).mp hm)
  exact hts.symm

lemma initHeap_bound (inputs : List MInput)
    (hsorted : ∀ inp ∈ inputs, List.Pairwise (fun a b : MRec => a.ts ≤ b.ts) inp.recs) :
    ∀ it ∈ initHeap inputs, ∀ r ∈ (initStreams inputs).getD it.idx [], it.ts ≤ r.ts := by
  intro it hm r hr
  obtain ⟨j, hj, hidx, tl, hrecs, hts, hfeed⟩ :=
    headItemsFrom_mem inputs 0 it ((mem_initHeap inputs it).mp hm)
  have hidx2 : it.idx = j := by omega
  rw [hidx2, initStreams_getD inputs j hj, hrecs] at hr
  simp only [List.tail_cons] at hr
  have hsp := hsorted (inputs.getD j default) (getD_mem inputs j default hj)
  rw [hrecs] at hsp
  rw [hts]
  exact (List.pairwise_cons.mp hsp).1 r hr

lemma initStreams_sorted (inputs : List MInput)
    (hsorted : ∀ inp ∈ inputs, List.Pairwise (fun a b : MRec => a.ts ≤ b.ts) inp.recs) :
    ∀ s ∈ initStreams inputs, List.Pairwise (fun a b : MRec => a.ts ≤ b.ts) s := by
  intro s hs
  obtain ⟨inp, hinp, rfl⟩ := List.mem_map.mp hs
  exact pairwise_tail (hsorted inp hinp)

/-- The merge output is, as a multiset, exactly the tagged
concatenation of the inputs. -/
lemma merge_streams_ms (inputs : List MInput) :
    (↑(merge_streams inputs) : Multiset (Nat × MRec)) = ↑(mergedConcat inputs) := by
  have halign : ∀ j, j < inputs.length →
      (inputs.map (fun inp => inp.header.feed_id)).getD (0 + j) 0
        = (inputs.getD j default).header.feed_id := by
    intro j hj
    rw [Nat.zero_add]
    exact getD_map _ inputs j 0 default hj
  have hacc := init_account (inputs.map (fun inp => inp.header.feed_id)) inputs 0 halign
  rw [merge_streams, mergeLoop_ms (inputs.map (fun inp => inp.header.feed_id)) _ _
    (initHeap_feedOk inputs) (initHeap_cover inputs)]
  rw [initHeap, initHeapFrom_ms inputs 0 [], Multiset.coe_nil, zero_add]
  simp only [initStreams]
  exact hacc

/-- The merge output is sorted by timestamp when each input is. -/
lemma merge_streams_sorted (inputs : List MInput)
    (hsorted : ∀ inp ∈ inputs, List.Pairwise (fun a b : MRec => a.ts ≤ b.ts) inp.recs) :
    List.Pairwise (fun a b : Nat × MRec => a.2.ts ≤ b.2.ts) (merge_streams inputs) := by
  rw [merge_streams]
  exact mergeLoop_sorted
    ((initHeap inputs).length + ((initStreams inputs).map List.length).sum)
    (initStreams inputs) (initHeap inputs) le_rfl (initHeap_heapProp inputs)
    (initHeap_bound inputs hsorted) (initStreams_sorted inputs hsorted)
    (initHeap_cover inputs) (initHeap_tsok inputs)

/-! ### Concrete merge inputs -/

/-- The two-input example of the claim: input A has records at t=5 and
t=7 under feed id 1, input B has records at t=5 and t=6 under feed id 2. -/
def mergeExampleC1 : List MInput :=
  [⟨⟨1, 20240102, 2, 9⟩, [⟨5, 100⟩, ⟨7, 101⟩]⟩,
   ⟨⟨2, 20240102, 2, 9⟩, [⟨5, 200⟩, ⟨6, 201⟩]⟩]

/-- A tie at t=5 between input index 0 (feed 1, records at t=1 and
t=5) and input index 1 (feed 2, one record at t=5). -/
def mergeTieInputs : List MInput :=
  [⟨⟨1, 20240102, 2, 9⟩, [⟨1, 10⟩, ⟨5, 11⟩]⟩,
   ⟨⟨2, 20240102, 1, 9⟩, [⟨5, 20⟩]⟩]

/-- The final header and output list merge_files produces on
mergeTieInputs (checked below by evaluation). -/
def mergeTieHeader : FileHeader := ⟨1, 20240102, 3, 9⟩

def mergeTieOut : List (Nat × MRec) := [(1, ⟨1, 10⟩), (2, ⟨5, 20⟩), (1, ⟨5, 11⟩)]

/-- C1 (amended): for every collection of per-venue input streams each
sorted by timestamp, the merger's output stream is a permutation of the
concatenation of the input streams and is sorted by timestamp; and on
the claim's own example — A=[t=5,t=7] with feed id 1, B=[t=5,t=6] with
feed id 2 — the emitted (timestamp, feed) sequence is
(5,1),(5,2),(6,2),(7,1). (The claim's stronger statement that equal
timestamps are always emitted in input-index order is refuted
separately: the heap pop order on ties follows the heap arrangement,
not the input index.) -/
theorem merge_output_perm_and_sorted_by_timestamp :
    (∀ inputs : List MInput,
        (∀ inp ∈ inputs, List.Pairwise (fun a b : MRec => a.ts ≤ b.ts) inp.recs) →
        (merge_streams inputs).Perm (mergedConcat inputs)
          ∧ List.Pairwise (fun a b : Nat × MRec => a.2.ts ≤ b.2.ts)
              (merge_streams inputs))
    ∧ (merge_streams mergeExampleC1).map (fun e => (e.2.ts, e.1))
        = [(5, 1), (5, 2), (6, 2), (7, 1)] := by
  constructor
  · intro inputs hsorted
    exact ⟨Multiset.coe_eq_coe.mp (merge_streams_ms inputs),
      merge_streams_sorted inputs hsorted⟩
  · rw [← merge_streamsF_eq]
    decide

/-- Witness for C1 at the claim's own example: both inputs are sorted
by timestamp, and the merge output is a permutation of the tagged
concatenation and sorted by timestamp. -/
theorem merge_output_perm_and_sorted_by_timestamp_witness :
    (∀ inp ∈ mergeExampleC1, List.Pairwise (fun a b : MRec => a.ts ≤ b.ts) inp.recs)
    ∧ ((merge_streams mergeExampleC1).Perm (mergedConcat mergeExampleC1)
        ∧ List.Pairwise (fun a b : Nat × MRec => a.2.ts ≤ b.2.ts)
            (merge_streams mergeExampleC1)) :=
  ⟨by decide, merge_output_perm_and_sorted_by_timestamp.1 mergeExampleC1 (by decide)⟩

/-- C1 counterexample to the stable input-index tie-break: with input
index 0 = [t=1, t=5] (feed 1) and input index 1 = [t=5] (feed 2), the
code emits input 1's t=5 record before input 0's, because after the
t=1 pop the heap holds input 0's t=5 item in the root's right child and
pop_heap's adjust step promotes it below input 1's equal-key root; a
(timestamp, input_index) sort would put (5, feed 1) first. -/
theorem merge_tie_break_not_by_input_index :
    merge_streams mergeTieInputs
        = [(1, ⟨1, 10⟩), (2, ⟨5, 20⟩), (1, ⟨5, 11⟩)]
      ∧ merge_streams mergeTieInputs
        ≠ [(1, ⟨1, 10⟩), (1, ⟨5, 11⟩), (2, ⟨5, 20⟩)] := by
  rw [← merge_streamsF_eq]
  exact ⟨by decide, by decide⟩

/-- C2 (amended): whenever merge_files_for_symbol_by_timestamp keeps
an output file, the file's records are the merged stream, and the
header at offset 0 is determined by the wrapped uint32 record counter:
when the emitted count mod 2^32 is nonzero, the final header patched
at offset 0 is the first opened input's header with only the uint32
count field replaced by the wrapped count — feed_id, dateint and
symbol_idx are all inherited from that first header, and feed_id is
never zeroed; when the emitted count is a nonzero multiple of 2^32 the
wrapped counter is 0, the patch is skipped, and the kept file still
starts with the all-zero placeholder header. -/
theorem merge_final_header_fields (inputs : List MInput) (hdr : FileHeader)
    (out : List (Nat × MRec)) (h : merge_files inputs = some (hdr, out)) :
    out = merge_streams inputs
    ∧ (0 < out.length % 4294967296 →
        hdr.feed_id = (inputs.headD default).header.feed_id
        ∧ hdr.dateint = (inputs.headD default).header.dateint
        ∧ hdr.symbol_idx = (inputs.headD default).header.symbol_idx
        ∧ hdr.count = out.length % 4294967296)
    ∧ (out.length % 4294967296 = 0 → hdr = ⟨0, 0, 0, 0⟩) := by
  rw [merge_files] at h
  by_cases h1 : (initHeap inputs).isEmpty
  · rw [if_pos h1] at h
    exact absurd h (by simp)
  · rw [if_neg h1] at h
    by_cases h2 : 0 < (merge_streams inputs).length % 4294967296
    · rw [if_pos h2] at h
      have h3 := Option.some.inj h
      have hh : hdr = { (inputs.headD default).header with
          count := (merge_streams inputs).length % 4294967296 } :=
        (congrArg Prod.fst h3).symm
      have ho : out = merge_streams inputs := (congrArg Prod.snd h3).symm
      subst hh
      subst ho
      exact ⟨rfl, fun _ => ⟨rfl, rfl, rfl, rfl⟩, fun hz => absurd hz (by omega)⟩
    · rw [if_neg h2] at h
      by_cases h4 : (merge_streams inputs).isEmpty
      · rw [if_pos h4] at h
        exact absurd h (by simp)
      · rw [if_neg h4] at h
        have h3 := Option.some.inj h
        have hh : hdr = ⟨0, 0, 0, 0⟩ := (congrArg Prod.fst h3).symm
        have ho : out = merge_streams inputs := (congrArg Prod.snd h3).symm
        subst hh
        subst ho
        exact ⟨rfl, fun hp => absurd hp h2, fun _ => rfl⟩

/-- Witness for C2 on a concrete two-input merge that emits three
records (wrapped uint32 count 3, nonzero). -/
theorem merge_final_header_fields_witness :
    merge_files mergeTieInputs = some (mergeTieHeader, mergeTieOut)
    ∧ (mergeTieOut = merge_streams mergeTieInputs
      ∧ (0 < mergeTieOut.length % 4294967296 →
          mergeTieHeader.feed_id = (mergeTieInputs.headD default).header.feed_id
          ∧ mergeTieHeader.dateint = (mergeTieInputs.headD default).header.dateint
          ∧ mergeTieHeader.symbol_idx = (mergeTieInputs.headD default).header.symbol_idx
          ∧ mergeTieHeader.count = mergeTieOut.length % 4294967296)
      ∧ (mergeTieOut.length % 4294967296 = 0 → mergeTieHeader = ⟨0, 0, 0, 0⟩)) := by
  have hEq : merge_files mergeTieInputs = some (mergeTieHeader, mergeTieOut) := by
    rw [← merge_filesF_eq]
    decide
  exact ⟨hEq, merge_final_header_fields mergeTieInputs mergeTieHeader mergeTieOut hEq⟩

/-- C2 counterexample to the zero sentinel: this merge emits three
records (at least one), yet the final header's feed_id is the first
input's feed id 1, not the claimed reserved value 0. -/
theorem merge_final_header_feed_id_not_zero :
    merge_files mergeTieInputs = some (mergeTieHeader, mergeTieOut)
    ∧ 0 < mergeTieOut.length
    ∧ mergeTieHeader.feed_id ≠ 0 := by
  refine ⟨?_, by decide, by decide⟩
  rw [← merge_filesF_eq]
  decide

end SPM
